import Mathlib

/-!
Verification of the ZKTeco check-in synchronization app.

The repository contains two near-identical copies of the application code:

* file `src/zkteco_checkins_sync/zkteco_checkins_sync/zkteco_checkin_sync/doctype/zkteco_config/zkteco_config.py`
  (modelled below in namespace `SyncApp`), and
* file `src/zkteco_checkins_sync/zkteco_checkin_sync/doctype/zkteco_config/zkteco_config.py`
  (modelled below in namespaces `DetectB` / `CheckinApp`),

plus the standalone script `src/zkteco_checkins_sync/fix_existing_checkins.py`
(modelled in namespace `Repair`, together with `fix_existing_checkins` which is
identical in both `zkteco_config.py` copies).

Modelling conventions:

* Python `datetime` values are modelled as `Int` seconds; a calendar day is
  `Int.fdiv time 86400`, and truncation of a datetime to whole seconds
  (`strftime("%Y-%m-%d %H:%M:%S")`) is the identity on these values.
  5 minutes = 300, 1 day = 86400, 90 days = 7776000 seconds.
* A Python dict field that may be absent is an `Option`; the empty string is
  falsy, mirroring Python truthiness in `or`-chains and `if not x` checks.
* Python's stable `list.sort` is modelled by a stable insertion sort.
* The schema-less transaction dict used by `detect_log_type` is modelled as an
  association list `List (String × PyVal)` iterated in insertion order.
-/

/-! ### Generic helpers (substring search, indexed map, first-occurrence dedup) -/

/-- `leadMatch n h` is true when the char list `n` is an initial segment of `h`
(Python `str.startswith`, used to implement the `in` substring operator). -/
def leadMatch : List Char → List Char → Bool
  | [], _ => true
  | _ :: _, [] => false
  | a :: as, b :: bs => a == b && leadMatch as bs

/-- `seekSub n h` is true when `n` occurs as a contiguous run inside `h`. -/
def seekSub (n : List Char) : List Char → Bool
  | [] => leadMatch n []
  | c :: rest => leadMatch n (c :: rest) || seekSub n rest

/-- Python's substring test `needle in hay` on strings. -/
def containsSub (needle hay : String) : Bool :=
  seekSub needle.toList hay.toList

/-- `mapIdxFrom f i l` maps `f` over `l` passing each element's index counted
from `i` (models Python `enumerate`). -/
def mapIdxFrom {α β : Type} (f : Nat → α → β) : Nat → List α → List β
  | _, [] => []
  | i, a :: as => f i a :: mapIdxFrom f (i + 1) as

/-- Keep the first occurrence of each value, preserving first-appearance order
(the key order of a Python dict / defaultdict). -/
def firstDedup {α : Type} [DecidableEq α] : List α → List α
  | [] => []
  | a :: as => a :: (firstDedup as).filter (fun b => decide (b ≠ a))

/-! ### Python truthiness helpers for optional string fields -/

/-- Python `a or b` for two optional string fields (`""` and absence are falsy). -/
def pyOrOpt (a b : Option String) : Option String :=
  match a with
  | some s => if s = "" then b else some s
  | none => b

/-- Squash a falsy optional string to `none` (Python `if not x` filtering). -/
def sTruthy (a : Option String) : Option String :=
  match a with
  | some s => if s = "" then none else some s
  | none => none

/-- Python `a or b` where the fallback `b` is a plain string. -/
def pyOrStr (a : Option String) (b : String) : String :=
  match a with
  | some s => if s = "" then b else s
  | none => b

/-! ### Values of a schema-less transaction dict -/

/-- A vendor-supplied dict value as far as `detect_log_type` inspects it. -/
inductive PyVal where
  | str (s : String)
  | int (n : Int)
  | bool (b : Bool)
  | none_
  deriving DecidableEq

/-- Python `str(value)`. -/
def PyVal.toStr : PyVal → String
  | .str s => s
  | .int n => toString n
  | .bool b => if b then "True" else "False"
  | .none_ => "None"

/-- Python truthiness of a dict value. -/
def PyVal.truthy : PyVal → Bool
  | .str s => s ≠ ""
  | .int n => n ≠ 0
  | .bool b => b
  | .none_ => false

/-- Python `int(value)`: `none` models a raised `ValueError`/`TypeError`
(caught by the source, which then moves to the next field). -/
def pyInt : PyVal → Option Int
  | .int n => some n
  | .bool b => some (if b then 1 else 0)
  | .str s => s.trim.toInt?
  | .none_ => none

/-- One entry of the `field_checks` table of `detect_log_type`. -/
inductive FieldChk where
  | numChk (field : String) (outV inV : Int)
  | strChk (field : String) (outV inV : String)
  deriving DecidableEq

namespace DetectA

/-!
Model of `detect_log_type`, copy at
`src/zkteco_checkins_sync/zkteco_checkins_sync/zkteco_checkin_sync/doctype/zkteco_config/zkteco_config.py`
lines 54-173.
-/

def outIndicatorsU : List String :=
  ["OUT", "CHECK OUT", "CHECKOUT", "CHK OUT", "CHKOUT", "OUTGOING", "EXIT"]

def inIndicatorsU : List String :=
  ["IN", "CHECK IN", "CHECKIN", "CHK IN", "CHKIN", "ENTRY"]

def outIndicatorsL : List String :=
  ["out", "check out", "checkout", "چیک آؤٹ"]

def inIndicatorsL : List String :=
  ["in", "check in", "checkin", "چیک ان"]

/-- Phase 1: scan every field value (stringified, uppercased, stripped) for an
OUT indicator, then an IN indicator; first hit wins. -/
def scanDirect : List (String × PyVal) → Option String
  | [] => none
  | (_, v) :: rest =>
    if !v.truthy && !(v == .int 0 || v == .bool false) then scanDirect rest
    else
      let vs := v.toStr.toUpper.trim
      if outIndicatorsU.any (fun x => containsSub x vs) then some "OUT"
      else if inIndicatorsU.any (fun x => containsSub x vs) then some "IN"
      else scanDirect rest

/-- The `field_checks` table, in source order. -/
def fieldChecks : List FieldChk :=
  [ .strChk "log_type" "OUT" "IN",
    .numChk "punch_state" 1 0,
    .numChk "punch" 1 0,
    .numChk "punchtype" 1 0,
    .strChk "type" "OUT" "IN",
    .strChk "direction" "OUT" "IN",
    .strChk "status" "OUT" "IN",
    .numChk "verify_type" 1 0 ]

/-- Phase 2: check one entry of `field_checks` against the transaction. -/
def runFieldCheck (t : List (String × PyVal)) : FieldChk → Option String
  | .numChk f ov iv =>
    match t.lookup f with
    | none => none
    | some .none_ => none
    | some v =>
      match pyInt v with
      | none => none
      | some n => if n = ov then some "OUT" else if n = iv then some "IN" else none
  | .strChk f ov iv =>
    match t.lookup f with
    | none => none
    | some .none_ => none
    | some v =>
      let val := v.toStr.toUpper.trim
      if val = ov.toUpper then some "OUT" else if val = iv.toUpper then some "IN" else none

def scanFieldChecks (t : List (String × PyVal)) : List FieldChk → Option String
  | [] => none
  | c :: cs =>
    match runFieldCheck t c with
    | some r => some r
    | none => scanFieldChecks t cs

/-- Phase 3: the human-readable `punch_state_display` field. -/
def scanPsd (t : List (String × PyVal)) : Option String :=
  let psd := ((t.lookup "punch_state_display").getD (.str "")).toStr.toLower.trim
  if psd = "" then none
  else if outIndicatorsL.any (fun x => containsSub x psd) then some "OUT"
  else if inIndicatorsL.any (fun x => containsSub x psd) then some "IN"
  else none

/-- Phase 4: any field whose name contains `punch`, `state` or `type`. -/
def scanPunchState : List (String × PyVal) → Option String
  | [] => none
  | (k, v) :: rest =>
    if !v.truthy && !(v == .int 0 || v == .bool false) then scanPunchState rest
    else
      let kl := k.toLower
      if containsSub "punch" kl || containsSub "state" kl || containsSub "type" kl then
        let vs := v.toStr.toLower
        if outIndicatorsL.any (fun x => containsSub x vs) then some "OUT"
        else if inIndicatorsL.any (fun x => containsSub x vs) then some "IN"
        else scanPunchState rest
      else scanPunchState rest

/-- `detect_log_type`: best-effort IN/OUT classification, defaulting to IN. -/
def detect_log_type (t : List (String × PyVal)) : String :=
  match scanDirect t with
  | some r => r
  | none =>
    match scanFieldChecks t fieldChecks with
    | some r => r
    | none =>
      match scanPsd t with
      | some r => r
      | none =>
        match scanPunchState t with
        | some r => r
        | none => "IN"

end DetectA

namespace DetectB

/-!
Model of `detect_log_type`, copy at
`src/zkteco_checkins_sync/zkteco_checkin_sync/doctype/zkteco_config/zkteco_config.py`
lines 70-189. The source text of this copy is byte-identical to the `DetectA`
copy, so the definitions below repeat that text's translation.
-/

def outIndicatorsU : List String :=
  ["OUT", "CHECK OUT", "CHECKOUT", "CHK OUT", "CHKOUT", "OUTGOING", "EXIT"]

def inIndicatorsU : List String :=
  ["IN", "CHECK IN", "CHECKIN", "CHK IN", "CHKIN", "ENTRY"]

def outIndicatorsL : List String :=
  ["out", "check out", "checkout", "چیک آؤٹ"]

def inIndicatorsL : List String :=
  ["in", "check in", "checkin", "چیک ان"]

def scanDirect : List (String × PyVal) → Option String
  | [] => none
  | (_, v) :: rest =>
    if !v.truthy && !(v == .int 0 || v == .bool false) then scanDirect rest
    else
      let vs := v.toStr.toUpper.trim
      if outIndicatorsU.any (fun x => containsSub x vs) then some "OUT"
      else if inIndicatorsU.any (fun x => containsSub x vs) then some "IN"
      else scanDirect rest

def fieldChecks : List FieldChk :=
  [ .strChk "log_type" "OUT" "IN",
    .numChk "punch_state" 1 0,
    .numChk "punch" 1 0,
    .numChk "punchtype" 1 0,
    .strChk "type" "OUT" "IN",
    .strChk "direction" "OUT" "IN",
    .strChk "status" "OUT" "IN",
    .numChk "verify_type" 1 0 ]

def runFieldCheck (t : List (String × PyVal)) : FieldChk → Option String
  | .numChk f ov iv =>
    match t.lookup f with
    | none => none
    | some .none_ => none
    | some v =>
      match pyInt v with
      | none => none
      | some n => if n = ov then some "OUT" else if n = iv then some "IN" else none
  | .strChk f ov iv =>
    match t.lookup f with
    | none => none
    | some .none_ => none
    | some v =>
      let val := v.toStr.toUpper.trim
      if val = ov.toUpper then some "OUT" else if val = iv.toUpper then some "IN" else none

def scanFieldChecks (t : List (String × PyVal)) : List FieldChk → Option String
  | [] => none
  | c :: cs =>
    match runFieldCheck t c with
    | some r => some r
    | none => scanFieldChecks t cs

def scanPsd (t : List (String × PyVal)) : Option String :=
  let psd := ((t.lookup "punch_state_display").getD (.str "")).toStr.toLower.trim
  if psd = "" then none
  else if outIndicatorsL.any (fun x => containsSub x psd) then some "OUT"
  else if inIndicatorsL.any (fun x => containsSub x psd) then some "IN"
  else none

def scanPunchState : List (String × PyVal) → Option String
  | [] => none
  | (k, v) :: rest =>
    if !v.truthy && !(v == .int 0 || v == .bool false) then scanPunchState rest
    else
      let kl := k.toLower
      if containsSub "punch" kl || containsSub "state" kl || containsSub "type" kl then
        let vs := v.toStr.toLower
        if outIndicatorsL.any (fun x => containsSub x vs) then some "OUT"
        else if inIndicatorsL.any (fun x => containsSub x vs) then some "IN"
        else scanPunchState rest
      else scanPunchState rest

def detect_log_type (t : List (String × PyVal)) : String :=
  match scanDirect t with
  | some r => r
  | none =>
    match scanFieldChecks t fieldChecks with
    | some r => r
    | none =>
      match scanPsd t with
      | some r => r
      | none =>
        match scanPunchState t with
        | some r => r
        | none => "IN"

end DetectB

/-! ### Transactions -/

/--
A raw attendance transaction, restricted to the typed fields the modelled
functions read. Dict keys that clash with Lean names are renamed:
`txId` is the dict key `id`, `timeF` is `time`, `device_id_f` is `device_id`,
`portF` is `port`. `seq_adjusted` models presence of the `_sequence_adjusted`
marker key (the source only ever sets it to `True`).
-/
structure Tx where
  emp_code : Option String := none
  employee_code : Option String := none
  employee_no : Option String := none
  txId : Option String := none
  transaction_id : Option String := none
  uid : Option String := none
  punch_time : Option Int := none
  punchTime : Option Int := none
  punchtime : Option Int := none
  timestamp : Option Int := none
  timeF : Option Int := none
  log_type : Option String := none
  seq_adjusted : Bool := false
  terminal_alias : Option String := none
  terminal_sn : Option String := none
  device_alias : Option String := none
  device_id_f : Option String := none
  ip_address : Option String := none
  portF : Option String := none
  deriving DecidableEq

/-- Strip the fields written by the normalizer (`log_type` and the
`_sequence_adjusted` marker), leaving the identity of the record. -/
def Tx.erase (t : Tx) : Tx :=
  { t with log_type := none, seq_adjusted := false }

namespace SyncApp

/-!
Model of `adjust_checkin_sequence` of
`src/zkteco_checkins_sync/zkteco_checkins_sync/zkteco_checkin_sync/doctype/zkteco_config/zkteco_config.py`
lines 566-658: group by (employee, calendar day), stable-sort each group by
time, then force first=IN / last=OUT / alternate the middles, keeping any
already-valid `IN`/`OUT` label; labels are written onto the punches in place
and the input list is returned unchanged in order.
-/

/-- `t.get("emp_code") or t.get("employee_code")`, squashed by `if not emp`. -/
def txEmp (t : Tx) : Option String :=
  sTruthy (pyOrOpt t.emp_code t.employee_code)

/-- The `or`-chain of time fields read by the grouping loop
(`punch_time`, `punchTime`, `punchtime`, `timestamp`, `time`). -/
def txRawTime (t : Tx) : Option Int :=
  t.punch_time <|> t.punchTime <|> t.punchtime <|> t.timestamp <|> t.timeF

/-- The calendar day of a timestamp (`dt.strftime("%Y-%m-%d")`). -/
def dayKey (tm : Int) : Int := Int.fdiv tm 86400

/-- The grouping key `(emp, date_key)`; `none` when the punch is skipped for a
missing employee code or time. -/
def keyOf (t : Tx) : Option (String × Int) :=
  match txEmp t, txRawTime t with
  | some e, some tm => some (e, dayKey tm)
  | _, _ => none

/-- Sort key of a grouped punch (its parsed datetime). -/
def timeKey (t : Tx) : Int := (txRawTime t).getD 0

/-- Stable insertion pass of the model of Python's stable `list.sort`. -/
def sInsert (t : Tx) : List Tx → List Tx
  | [] => [t]
  | u :: us => if timeKey t ≤ timeKey u then t :: u :: us else u :: sInsert t us

/-- Stable sort by `timeKey` (model of `punches.sort(key=lambda x: x[0])`). -/
def sSort : List Tx → List Tx
  | [] => []
  | t :: ts => sInsert t (sSort ts)

/-- `punch['log_type'] in ['IN', 'OUT']` (with presence check). -/
def validLabel : Option String → Bool
  | some "IN" => true
  | some "OUT" => true
  | _ => false

/-- Write a label and the `_sequence_adjusted` marker onto a punch. -/
def setLab (t : Tx) (l : String) : Tx :=
  { t with log_type := some l, seq_adjusted := true }

/-- `"OUT" if prev_type == "IN" else "IN"`. -/
def flipL (p : String) : String := if p = "IN" then "OUT" else "IN"

/-- The single-punch rule: keep a valid label, otherwise force `IN`. -/
def singleFix (t : Tx) : Tx := if validLabel t.log_type then t else setLab t "IN"

/-- The first-punch rule: keep a valid label, otherwise force `IN`. -/
def firstFix (t : Tx) : Tx := if validLabel t.log_type then t else setLab t "IN"

/-- The last-punch rule: keep a valid label, otherwise force `OUT`. -/
def lastFix (t : Tx) : Tx := if validLabel t.log_type then t else setLab t "OUT"

/-- The middle-punch walk: keep a valid label and use it as the new previous
label, otherwise assign the opposite of the previous label. `prev` starts at
`"IN"` (the source sets `prev_type = "IN"` unconditionally). -/
def midWalk (prev : String) : List Tx → List Tx
  | [] => []
  | t :: ts =>
    if validLabel t.log_type then t :: midWalk ((t.log_type).getD "") ts
    else setLab t (flipL prev) :: midWalk (flipL prev) ts

/-- Relabel one chronologically sorted (employee, day) group. -/
def relabelGroup : List Tx → List Tx
  | [] => []
  | [t] => [singleFix t]
  | t :: u :: rest =>
    firstFix t ::
      (midWalk "IN" ((u :: rest).dropLast) ++
        [lastFix ((u :: rest).getLast (List.cons_ne_nil u rest))])

/--
The position the `j`-th element of `g` (which is `t`) occupies after the
stable sort of `g` by `timeKey`: the number of strictly earlier times plus the
number of equal times among the elements before position `j`.
-/
def chronoRankAt (g : List Tx) (j : Nat) (t : Tx) : Nat :=
  (g.filter (fun u => decide (timeKey u < timeKey t))).length +
    ((g.take j).filter (fun u => decide (timeKey u = timeKey t))).length

/-- Copy the label fields written by the normalizer from `src` onto `t`. -/
def setCopy (t src : Tx) : Tx :=
  { t with log_type := src.log_type, seq_adjusted := src.seq_adjusted }

/--
Relabel a group, returning it in its original (input) order: the element at
input position `j` receives the label computed at its stable-sort position
(`chronoRankAt`) by `relabelGroup` over the sorted group. This models the
in-place mutation of the sorted dict objects.
-/
def relabelInputOrder (g : List Tx) : List Tx :=
  mapIdxFrom (fun j t =>
    match (relabelGroup (sSort g)).get? (chronoRankAt g j t) with
    | some t' => setCopy t t'
    | none => t) 0 g

/-- The new value of one input punch: members of a group take the relabelled
punch at their position within the group, punches without a key are kept. -/
def adjStep (full pre : List Tx) (t : Tx) : Tx :=
  match keyOf t with
  | none => t
  | some k =>
    let grp := full.filter (fun u => decide (keyOf u = some k))
    let j := (pre.filter (fun u => decide (keyOf u = some k))).length
    match (relabelInputOrder grp).get? j with
    | some t' => t'
    | none => t

def adjustAux (full : List Tx) : List Tx → List Tx → List Tx
  | _, [] => []
  | pre, t :: rest => adjStep full pre t :: adjustAux full (pre ++ [t]) rest

/-- `adjust_checkin_sequence` (grouping copy): the returned list holds the
input punches in input order, with labels resolved per (employee, day) group. -/
def adjust_checkin_sequence (ts : List Tx) : List Tx :=
  adjustAux ts [] ts

end SyncApp

namespace CheckinApp

/-!
Model of `adjust_checkin_sequence` of
`src/zkteco_checkins_sync/zkteco_checkin_sync/doctype/zkteco_config/zkteco_config.py`
lines 630-670: group by employee code only (no day), drop records without an
employee code or time, stable-sort each group by time, assign strictly
alternating `IN`/`OUT` by position parity (overwriting any existing label),
then return all kept records sorted globally by time.
-/

/-- `transaction.get('emp_code', 'unknown')` followed by the
`emp_code != 'unknown'` guard. -/
def yKey (t : Tx) : Option String :=
  match t.emp_code with
  | none => none
  | some c => if c = "unknown" then none else some c

/-- `transaction.get('punch_time') or transaction.get('timestamp')`. -/
def yTime (t : Tx) : Option Int := t.punch_time <|> t.timestamp

/-- The `if punch_time and emp_code != 'unknown'` guard. -/
def yValid (t : Tx) : Bool := (yTime t).isSome && (yKey t).isSome

/-- Sort key (the `_punch_time` temporary field). -/
def ySortKey (t : Tx) : Int := (yTime t).getD 0

def yInsert (t : Tx) : List Tx → List Tx
  | [] => [t]
  | u :: us => if ySortKey t ≤ ySortKey u then t :: u :: us else u :: yInsert t us

/-- Stable sort by `ySortKey`. -/
def ySort : List Tx → List Tx
  | [] => []
  | t :: ts => yInsert t (ySort ts)

/-- `adjust_checkin_sequence` (parity copy): per-employee parity labels, then a
global re-sort by punch time; invalid records are dropped. -/
def adjust_checkin_sequence (ts : List Tx) : List Tx :=
  let vs := ts.filter yValid
  let ks := firstDedup (vs.filterMap yKey)
  let flat := ks.bind (fun e =>
    mapIdxFrom
      (fun i t =>
        { t with log_type := some (if i % 2 = 0 then "IN" else "OUT"), seq_adjusted := true })
      0 (ySort (vs.filter (fun u => decide (yKey u = some e)))))
  ySort flat

end CheckinApp

/-! ### Stored attendance events and the upsert gate -/

/-- A persisted `Employee Checkin` row, restricted to the fields the modelled
functions read or write. -/
structure Event where
  employee : String
  time : Int
  log_type : String
  device_id : String
  deriving DecidableEq

/-- Result of `create_employee_checkin`: `ok b` models returning `b`;
`nameErr` models an uncaught `NameError` escaping the function. -/
inductive CreateResult where
  | ok (created : Bool)
  | nameErr
  deriving DecidableEq

namespace SyncApp

/-!
Model of `create_employee_checkin` of
`src/zkteco_checkins_sync/zkteco_checkins_sync/zkteco_checkin_sync/doctype/zkteco_config/zkteco_config.py`
lines 664-935. The store is a list of `Event`s; `emps` models
`find_employee_by_code` (a database collaborator); `dupRaises` models whether
the insert raises a uniqueness-constraint violation (`frappe.DuplicateEntryError`).
In this copy the `except frappe.DuplicateEntryError:` handler references the
unbound name `e`, so a raised duplicate error becomes an uncaught `NameError`
(modelled as `CreateResult.nameErr`); the sibling copy binds `e` and returns
success.
-/

/-- The employee-code `or`-chain (`emp_code`, `employee_code`, `employee_no`,
`str(transaction.get('id', '')).split('_')[0]`). -/
def createEmp (t : Tx) : String :=
  pyOrStr t.emp_code (pyOrStr t.employee_code (pyOrStr t.employee_no
    ((((t.txId.getD "").splitOn "_").headD ""))))

/-- The first present datetime field of `time_fields`
(`punch_time`, `punchTime`, `punchtime`, `time`, `timestamp`; the remaining
entries are string/format variants with no counterpart in `Tx`). -/
def createTime (t : Tx) : Option Int :=
  t.punch_time <|> t.punchTime <|> t.punchtime <|> t.timeF <|> t.timestamp

/-- The device-identifier `or`-chain ending in the always-truthy
`f"{ip_address}:{port}"` and the dead `'Unknown'` fallback. -/
def deviceIdOf (t : Tx) : String :=
  pyOrStr t.terminal_alias (pyOrStr t.terminal_sn (pyOrStr t.device_alias (pyOrStr t.device_id_f
    (let fs := (t.ip_address.getD "") ++ ":" ++ (t.portF.getD "")
     if fs = "" then "Unknown" else fs))))

/-- The transaction-id `or`-chain (`id`, `transaction_id`, `uid`, `'unknown'`). -/
def tidOf (t : Tx) : String :=
  pyOrStr t.txId (pyOrStr t.transaction_id (pyOrStr t.uid "unknown"))

/-- `unique_device_id`: append a `(ZKTeco-<id>)` suffix, then truncate to 135
characters plus `'...'` when longer than 140. -/
def uniqueDeviceIdOf (t : Tx) : String :=
  let dev := deviceIdOf t
  let tid := tidOf t
  let raw :=
    if dev ≠ "" ∧ tid ≠ "" then dev ++ " (ZKTeco-" ++ tid ++ ")"
    else if tid ≠ "" then (if dev ≠ "" then dev else "ZKTeco-" ++ tid)
    else "ZKTeco Device"
  if raw.length > 140 then (String.mk (raw.toList.take 135)) ++ "..." else raw

/-- Projection of a `Tx` to the schema-less dict handed to `detect_log_type`
when no sequence-adjusted label is present (fields in declaration order,
datetimes stringified as their integer value). -/
def txFields (t : Tx) : List (String × PyVal) :=
  (match t.emp_code with | some s => [("emp_code", PyVal.str s)] | none => []) ++
  (match t.employee_code with | some s => [("employee_code", PyVal.str s)] | none => []) ++
  (match t.employee_no with | some s => [("employee_no", PyVal.str s)] | none => []) ++
  (match t.txId with | some s => [("id", PyVal.str s)] | none => []) ++
  (match t.transaction_id with | some s => [("transaction_id", PyVal.str s)] | none => []) ++
  (match t.uid with | some s => [("uid", PyVal.str s)] | none => []) ++
  (match t.punch_time with | some n => [("punch_time", PyVal.int n)] | none => []) ++
  (match t.punchTime with | some n => [("punchTime", PyVal.int n)] | none => []) ++
  (match t.punchtime with | some n => [("punchtime", PyVal.int n)] | none => []) ++
  (match t.timestamp with | some n => [("timestamp", PyVal.int n)] | none => []) ++
  (match t.timeF with | some n => [("time", PyVal.int n)] | none => []) ++
  (match t.log_type with | some s => [("log_type", PyVal.str s)] | none => []) ++
  (if t.seq_adjusted then [("_sequence_adjusted", PyVal.bool true)] else []) ++
  (match t.terminal_alias with | some s => [("terminal_alias", PyVal.str s)] | none => []) ++
  (match t.terminal_sn with | some s => [("terminal_sn", PyVal.str s)] | none => []) ++
  (match t.device_alias with | some s => [("device_alias", PyVal.str s)] | none => []) ++
  (match t.device_id_f with | some s => [("device_id", PyVal.str s)] | none => []) ++
  (match t.ip_address with | some s => [("ip_address", PyVal.str s)] | none => []) ++
  (match t.portF with | some s => [("port", PyVal.str s)] | none => [])

/-- The resolved label: a sequence-adjusted truthy `log_type` is used as is,
otherwise `detect_log_type` runs (its result is always truthy, so the
`log_type = "IN"` fallback after it is dead). -/
def labelOf (t : Tx) : String :=
  if t.seq_adjusted ∧ sTruthy t.log_type ≠ none then (t.log_type).getD ""
  else DetectA.detect_log_type (txFields t)

/-- The `device_id` LIKE-pattern of the duplicate lookup
(`%{device_id}%` — `device_id` is never falsy here — else `%ZKTeco%`). -/
def lookupPat (t : Tx) : String :=
  if deviceIdOf t ≠ "" then deviceIdOf t else "ZKTeco"

/-- The duplicate lookup: same employee, same second-truncated time, same
label, and the device pattern occurring inside the stored `device_id`. -/
def hitB (emp : String) (tm : Int) (lab pat : String) (s : List Event) : Bool :=
  s.any (fun ev =>
    decide (ev.employee = emp) && decide (ev.time = tm) &&
    decide (ev.log_type = lab) && containsSub pat ev.device_id)

/-- `create_employee_checkin`. Returns the reported result and the new store. -/
def create_employee_checkin (dupRaises : Bool) (now : Int)
    (emps : String → Option String) (t : Tx) (s : List Event) :
    CreateResult × List Event :=
  match createTime t with
  | none => (.ok false, s)
  | some tm =>
    if createEmp t = "" then (.ok false, s)
    else if tm > now + 86400 then (.ok false, s)
    else if now - tm > 7776000 then (.ok false, s)
    else
      match emps (createEmp t) with
      | none => (.ok false, s)
      | some emp =>
        if tm > now + 300 then (.ok false, s)
        else if tm < now - 7776000 then (.ok false, s)
        else
          let lab := labelOf t
          if hitB emp tm lab (lookupPat t) s then (.ok true, s)
          else if dupRaises then (.nameErr, s)
          else (.ok true,
            s ++ [{ employee := emp, time := tm, log_type := lab,
                    device_id := uniqueDeviceIdOf t }])

/-- The outcome of the parsing, validity-gate and identity-resolution stages of
`create_employee_checkin`, which do not read the store: `none` when the record
is rejected, otherwise the resolved `(employee, time, label)`. -/
def gateOk (now : Int) (emps : String → Option String) (t : Tx) :
    Option (String × Int × String) :=
  match createTime t with
  | none => none
  | some tm =>
    if createEmp t = "" then none
    else if tm > now + 86400 then none
    else if now - tm > 7776000 then none
    else
      match emps (createEmp t) with
      | none => none
      | some emp =>
        if tm > now + 300 then none
        else if tm < now - 7776000 then none
        else some (emp, tm, labelOf t)

/-- Model of `create_checkin_from_attendance_v2` (identical in both copies):
exact-match dedup on (employee, time, device, label), same 5-minute / 90-day
window. -/
def create_checkin_from_attendance_v2 (now : Int) (emps : String → Option String)
    (t : Tx) (dev : String) (s : List Event) : Bool × List Event :=
  match sTruthy t.emp_code with
  | none => (false, s)
  | some c =>
    match emps c with
    | none => (false, s)
    | some emp =>
      match t.punch_time <|> t.timestamp with
      | none => (false, s)
      | some tm =>
        if tm > now + 300 then (false, s)
        else if tm < now - 7776000 then (false, s)
        else
          let lab := (t.log_type).getD "IN"
          if s.any (fun ev =>
              decide (ev.employee = emp) && decide (ev.time = tm) &&
              decide (ev.device_id = dev) && decide (ev.log_type = lab))
          then (true, s)
          else (true, s ++ [{ employee := emp, time := tm, log_type := lab, device_id := dev }])

/-- Run the upsert gate over a batch of punches (the per-transaction loop of
`sync_zkteco_transactions`; per-record failures only affect counters). -/
def syncBatch (now : Int) (emps : String → Option String)
    (s : List Event) (ts : List Tx) : List Event :=
  ts.foldl (fun st t => (create_employee_checkin false now emps t st).2) s

/-- One sync invocation's effect on the store: normalize the fetched batch,
then upsert each punch (`sync_zkteco_transactions` lines 444-475). -/
def sync_pass (now : Int) (emps : String → Option String)
    (s : List Event) (batch : List Tx) : List Event :=
  syncBatch now emps s (adjust_checkin_sequence batch)

/-- The calendar day of a stored event. -/
def evDay (ev : Event) : Int := Int.fdiv ev.time 86400

/-- All stored events of one (employee, day). -/
def dayGroup (s : List Event) (emp : String) (d : Int) : List Event :=
  s.filter (fun ev => decide (ev.employee = emp) && decide (evDay ev = d))

/-- The spec's stored-state invariant: within each (employee, day) group a
single event is labelled `IN`; with two or more events the chronologically
first (minimal-time) event is `IN` and the chronologically last (maximal-time)
event is `OUT`. -/
def storedInvariant (s : List Event) : Prop :=
  ∀ ev ∈ s,
    ((dayGroup s ev.employee (evDay ev)).length = 1 → ev.log_type = "IN") ∧
    (2 ≤ (dayGroup s ev.employee (evDay ev)).length →
      ((∀ e2 ∈ dayGroup s ev.employee (evDay ev), ev.time ≤ e2.time) → ev.log_type = "IN") ∧
      ((∀ e2 ∈ dayGroup s ev.employee (evDay ev), e2.time ≤ ev.time) → ev.log_type = "OUT"))

/-- The per-position label assigned to a fully unlabelled group of size `n`
(first `IN`, last `OUT`, middles alternating from `IN`). -/
def patternLabel (n i : Nat) : String :=
  if n = 1 then "IN" else if i = n - 1 then "OUT" else if i % 2 = 0 then "IN" else "OUT"

end SyncApp

namespace Repair

/-!
Model of the backfill pass: `fix_all_checkins` of
`src/zkteco_checkins_sync/fix_existing_checkins.py` lines 20-211 and
`fix_existing_checkins` of both `zkteco_config.py` copies (identical text).
Stored rows are retrieved filtered by a device/time predicate `flt` and ordered
by `employee asc, time asc`; they are grouped by (employee, day), each group is
sorted by time, positional labels are recomputed ignoring current labels, and
rows whose current label disagrees are batch-updated by name.
-/

/-- A stored `Employee Checkin` row as read by the repair pass. -/
structure ECheckin where
  name : Nat
  employee : String
  time : Int
  log_type : String
  device_id : String
  deriving DecidableEq

/-- The retrieval ordering `employee asc, time asc`. -/
def empTimeLe (a b : ECheckin) : Prop :=
  a.employee < b.employee ∨ (a.employee = b.employee ∧ a.time ≤ b.time)

instance : DecidablePred fun p : ECheckin × ECheckin => empTimeLe p.1 p.2 := by
  intro p; unfold empTimeLe; infer_instance

instance (a b : ECheckin) : Decidable (empTimeLe a b) := by
  unfold empTimeLe; infer_instance

def rInsert (r : ECheckin) : List ECheckin → List ECheckin
  | [] => [r]
  | u :: us => if empTimeLe r u then r :: u :: us else u :: rInsert r us

/-- Stable sort modelling the `order_by="employee asc, time asc"` retrieval. -/
def rSort : List ECheckin → List ECheckin
  | [] => []
  | r :: rs => rInsert r (rSort rs)

/-- The grouping key `(employee, date_key)`. -/
def rKey (r : ECheckin) : String × Int := (r.employee, Int.fdiv r.time 86400)

def tInsert (r : ECheckin) : List ECheckin → List ECheckin
  | [] => [r]
  | u :: us => if r.time ≤ u.time then r :: u :: us else u :: tInsert r us

/-- Stable per-group sort by time. -/
def tSort : List ECheckin → List ECheckin
  | [] => []
  | r :: rs => tInsert r (tSort rs)

def flipRL (p : String) : String := if p = "IN" then "OUT" else "IN"

/-- The recomputed label at position `i` of a group of size `n`: position 0 is
`IN`, the last position is `OUT`, a middle position flips the previously
computed label. (Depends only on `n` and `i`, never on stored labels.) -/
def correctAt (n : Nat) : Nat → String
  | 0 => "IN"
  | i + 1 => if i + 1 = n - 1 then "OUT" else flipRL (correctAt n i)

/-- The update instructions `(name, new_label)` for one time-sorted group,
walking positions from `i` in a group of size `n`. -/
def groupUpdatesAux (n : Nat) : Nat → List ECheckin → List (Nat × String)
  | _, [] => []
  | i, r :: rs =>
    if r.log_type = correctAt n i then groupUpdatesAux n (i + 1) rs
    else (r.name, correctAt n i) :: groupUpdatesAux n (i + 1) rs

def groupUpdates (g : List ECheckin) : List (Nat × String) :=
  groupUpdatesAux g.length 0 g

/-- All update instructions computed over the retrieved rows. -/
def repairUpdates (rows : List ECheckin) : List (Nat × String) :=
  (firstDedup (rows.map rKey)).bind
    (fun k => groupUpdates (tSort (rows.filter (fun r => decide (rKey r = k)))))

/-- Apply one batch update to a row (`frappe.db.set_value` by name). -/
def updRow (us : List (Nat × String)) (r : ECheckin) : ECheckin :=
  match us.lookup r.name with
  | some l => { r with log_type := l }
  | none => r

/-- Apply the batch of updates to the store. -/
def applyUpdates (us : List (Nat × String)) (s : List ECheckin) : List ECheckin :=
  s.map (updRow us)

/-- `fix_existing_checkins` / non-dry-run `fix_all_checkins`: compute the
updates over the filtered, ordered rows and apply them; returns the update
instructions and the new store. -/
def fix_existing_checkins (flt : ECheckin → Bool) (s : List ECheckin) :
    List (Nat × String) × List ECheckin :=
  let us := repairUpdates (rSort (s.filter flt))
  (us, applyUpdates us s)

end Repair

namespace SyncApp

instance storedInvariantDec (s : List Event) : Decidable (storedInvariant s) := by
  unfold storedInvariant; infer_instance

/-- The event `create_employee_checkin` persists for an accepted punch (the
`getD` defaults are irrelevant once the gate passed). -/
def toEventOf (emps : String → Option String) (t : Tx) : Event :=
  { employee := (emps (createEmp t)).getD ""
    time := (createTime t).getD 0
    log_type := labelOf t
    device_id := uniqueDeviceIdOf t }

end SyncApp

/-! ### Concrete inputs used by witnesses and counterexamples -/

/-- An unlabelled punch of employee code `E1` at time `tm`. -/
def mkPunch (tm : Int) : Tx :=
  { emp_code := some "E1", punch_time := some tm, txId := some "T1" }

/-- A punch of employee code `E1` at time `tm` carrying a raw label `l`. -/
def mkPunchL (tm : Int) (l : String) : Tx :=
  { emp_code := some "E1", punch_time := some tm, txId := some "T1", log_type := some l }

/-- A concrete employee-resolution collaborator: only code `E1` resolves. -/
def empsEx : String → Option String :=
  fun c => if c = "E1" then some "EMP1" else none

/-- A punch whose `terminal_alias` is 136 characters long, so that the stored
`device_id` is truncated. -/
def longAliasPunch : Tx :=
  { emp_code := some "E1", punch_time := some 100, txId := some "T1",
    terminal_alias := some (String.mk (List.replicate 136 'a')),
    log_type := some "IN", seq_adjusted := true }

/-- A stored check-in row for the repair-pass witness. -/
def mkRow (nm : Nat) (tm : Int) (lt : String) : Repair.ECheckin :=
  { name := nm, employee := "EMP1", time := tm, log_type := lt, device_id := "1.2.3.4:4370" }

/-- The device filter of the repair pass (`device_id LIKE "%:4370%"`). -/
def rowFilter : Repair.ECheckin → Bool := fun row => containsSub ":4370" row.device_id

/-- Decidable check of the claim "labels strictly alternate `IN, OUT, IN, …`
and the last label is `OUT`". -/
def strictAltInOut (l : List (Option String)) : Bool :=
  decide (l = (List.range l.length).map (fun i => some (if i % 2 = 0 then "IN" else "OUT"))) &&
  decide (l.getLast? = some (some "OUT"))

/-! ## Theorems -/

/-! ### Generic list and string lemmas -/

theorem leadMatch_self_append (l m : List Char) : leadMatch l (l ++ m) = true := by
  induction l with
  | nil => rfl
  | cons a as ih => simp [leadMatch, ih]

theorem seekSub_of_lead {n h : List Char} (hl : leadMatch n h = true) :
    seekSub n h = true := by
  cases h with
  | nil => simpa [seekSub] using hl
  | cons c rest => simp [seekSub, hl]

theorem containsSub_self_append (s r : String) : containsSub s (s ++ r) = true := by
  unfold containsSub
  have h : (s ++ r).toList = s.toList ++ r.toList := by
    simp [String.toList, String.data_append]
  rw [h]
  exact seekSub_of_lead (leadMatch_self_append _ _)

theorem pyOrStr_ne_empty (a : Option String) {b : String} (hb : b ≠ "") :
    pyOrStr a b ≠ "" := by
  cases a with
  | none => simpa [pyOrStr] using hb
  | some s =>
    by_cases hs : s = ""
    · simpa [pyOrStr, hs] using hb
    · simpa [pyOrStr, hs] using hs

theorem mapIdxFrom_length {α β : Type} (f : Nat → α → β) (p : Nat) (l : List α) :
    (mapIdxFrom f p l).length = l.length := by
  induction l generalizing p with
  | nil => rfl
  | cons a as ih => simp [mapIdxFrom, ih]

theorem mapIdxFrom_get? {α β : Type} (f : Nat → α → β) (p : Nat) (l : List α) (j : Nat) :
    (mapIdxFrom f p l).get? j = (l.get? j).map (f (p + j)) := by
  induction l generalizing p j with
  | nil => simp [mapIdxFrom]
  | cons a as ih =>
    cases j with
    | zero => simp [mapIdxFrom]
    | succ j =>
      rw [show p + (j + 1) = (p + 1) + j from by omega]
      simpa only [mapIdxFrom, List.get?] using ih (p + 1) j

theorem mapIdxFrom_append {α β : Type} (f : Nat → α → β) (p : Nat) (l₁ l₂ : List α) :
    mapIdxFrom f p (l₁ ++ l₂) = mapIdxFrom f p l₁ ++ mapIdxFrom f (p + l₁.length) l₂ := by
  induction l₁ generalizing p with
  | nil => simp [mapIdxFrom]
  | cons a as ih =>
    simp only [List.cons_append, mapIdxFrom, List.append_eq, ih (p + 1), List.length_cons]
    rw [show p + (as.length + 1) = (p + 1) + as.length from by omega]

theorem mapIdxFrom_congr {α β : Type} {f g : Nat → α → β} {p : Nat} {l : List α}
    (h : ∀ i a, p ≤ i → i < p + l.length → f i a = g i a) :
    mapIdxFrom f p l = mapIdxFrom g p l := by
  induction l generalizing p with
  | nil => rfl
  | cons a as ih =>
    simp only [mapIdxFrom]
    refine congrArg₂ _ (h p a (Nat.le_refl p) (by simp)) (ih fun i a hi hi2 => ?_)
    exact h i a (Nat.le_of_succ_le hi) (by simp only [List.length_cons]; omega)

theorem map_mapIdxFrom {α β γ : Type} (h : β → γ) (f : Nat → α → β) (p : Nat) (l : List α) :
    (mapIdxFrom f p l).map h = mapIdxFrom (fun i a => h (f i a)) p l := by
  induction l generalizing p with
  | nil => rfl
  | cons a as ih => simp [mapIdxFrom, ih]

theorem mapIdxFrom_eq_range_map {α β : Type} (c : Nat → β) (p : Nat) (l : List α) :
    mapIdxFrom (fun i _ => c i) p l = (List.range l.length).map (fun i => c (p + i)) := by
  induction l generalizing p with
  | nil => rfl
  | cons a as ih =>
    simp only [mapIdxFrom, List.length_cons, List.range_succ_eq_map, List.map_cons,
      List.map_map, Nat.add_zero]
    refine congrArg₂ _ rfl ?_
    rw [ih (p + 1)]
    refine List.map_congr_left fun i _ => ?_
    simp only [Function.comp]
    exact congrArg c (by omega)

theorem get?_filter_take {α : Type} (p : α → Bool) (l : List α) (i : Nat) (a : α)
    (hg : l.get? i = some a) (hp : p a = true) :
    (l.filter p).get? (((l.take i).filter p).length) = some a := by
  induction l generalizing i with
  | nil => simp at hg
  | cons x xs ih =>
    cases i with
    | zero =>
      simp only [List.get?] at hg
      cases hg
      simp [List.filter_cons, hp]
    | succ i =>
      simp only [List.get?] at hg
      by_cases hx : p x = true
      · simpa [List.filter_cons, hx, List.take_succ_cons] using ih i hg
      · simp only [Bool.not_eq_true] at hx
        simpa [List.filter_cons, hx, List.take_succ_cons] using ih i hg

/-! ### The two Label Detector copies agree (C10) -/

theorem detectA_outU_eq : DetectA.outIndicatorsU = DetectB.outIndicatorsU := rfl

theorem detectA_fieldChecks_eq : DetectA.fieldChecks = DetectB.fieldChecks := rfl

theorem detectA_runFieldCheck_eq : DetectA.runFieldCheck = DetectB.runFieldCheck := rfl

theorem detectA_scanPsd_eq : DetectA.scanPsd = DetectB.scanPsd := rfl

theorem detectA_scanDirect_eq (t : List (String × PyVal)) :
    DetectA.scanDirect t = DetectB.scanDirect t := by
  induction t with
  | nil => rfl
  | cons kv rest ih =>
    obtain ⟨k, v⟩ := kv
    simp only [DetectA.scanDirect, DetectB.scanDirect, DetectA.outIndicatorsU,
      DetectB.outIndicatorsU, DetectA.inIndicatorsU, DetectB.inIndicatorsU, ih]

theorem detectA_scanFieldChecks_eq (t : List (String × PyVal)) (cs : List FieldChk) :
    DetectA.scanFieldChecks t cs = DetectB.scanFieldChecks t cs := by
  induction cs with
  | nil => rfl
  | cons c cs ih =>
    simp only [DetectA.scanFieldChecks, DetectB.scanFieldChecks, detectA_runFieldCheck_eq, ih]

theorem detectA_scanPunchState_eq (t : List (String × PyVal)) :
    DetectA.scanPunchState t = DetectB.scanPunchState t := by
  induction t with
  | nil => rfl
  | cons kv rest ih =>
    obtain ⟨k, v⟩ := kv
    simp only [DetectA.scanPunchState, DetectB.scanPunchState, DetectA.outIndicatorsL,
      DetectB.outIndicatorsL, DetectA.inIndicatorsL, DetectB.inIndicatorsL, ih]

/-- **C10.** The two copies of the Label Detector (`detect_log_type` in each of
the two `zkteco_config.py` files) are extensionally equal: for every raw
transaction field mapping both return the same IN/OUT label. -/
theorem detect_log_type_copies_agree (t : List (String × PyVal)) :
    DetectA.detect_log_type t = DetectB.detect_log_type t := by
  simp only [DetectA.detect_log_type, DetectB.detect_log_type, detectA_scanDirect_eq,
    detectA_scanFieldChecks_eq, detectA_fieldChecks_eq, detectA_scanPsd_eq,
    detectA_scanPunchState_eq]

/-! ### Structural lemmas about the grouping normalizer (`SyncApp`) -/

namespace SyncApp
end SyncApp

open SyncApp in
theorem sInsert_perm (t : Tx) (l : List Tx) : (sInsert t l).Perm (t :: l) := by
  induction l with
  | nil => exact List.Perm.refl _
  | cons u us ih =>
    unfold sInsert
    by_cases h : timeKey t ≤ timeKey u
    · simp [h]
    · simp only [h, if_false]
      exact (ih.cons u).trans (List.Perm.swap t u us)

open SyncApp in
theorem sSort_perm (l : List Tx) : (sSort l).Perm l := by
  induction l with
  | nil => exact List.Perm.refl _
  | cons t ts ih =>
    exact (sInsert_perm t (sSort ts)).trans (ih.cons t)

open SyncApp in
theorem sSort_length (l : List Tx) : (sSort l).length = l.length :=
  (sSort_perm l).length_eq

open SyncApp in
theorem mem_sSort {x : Tx} {l : List Tx} (h : x ∈ sSort l) : x ∈ l :=
  (sSort_perm l).mem_iff.mp h

open SyncApp in
theorem flipL_parity (p : Nat) :
    flipL (if p % 2 = 0 then "IN" else "OUT") = if p % 2 = 0 then "OUT" else "IN" := by
  by_cases hp : p % 2 = 0 <;> simp [flipL, hp]

open SyncApp in
theorem midWalk_unlabeled (ms : List Tx) (p : Nat)
    (h : ∀ t ∈ ms, validLabel t.log_type = false) :
    midWalk (if p % 2 = 0 then "IN" else "OUT") ms =
      mapIdxFrom (fun i t => setLab t (if i % 2 = 0 then "OUT" else "IN")) p ms := by
  induction ms generalizing p with
  | nil => rfl
  | cons m ms ih =>
    have hm := h m (by simp)
    simp only [midWalk, hm, Bool.false_eq_true, if_false, mapIdxFrom]
    rw [flipL_parity]
    refine congrArg₂ _ rfl ?_
    have hstep : (if p % 2 = 0 then "OUT" else "IN") =
        (if (p + 1) % 2 = 0 then "IN" else "OUT") := by
      by_cases hp : p % 2 = 0
      · have h1 : (p + 1) % 2 = 1 := by omega
        simp [hp, h1]
      · have h1 : (p + 1) % 2 = 0 := by omega
        simp [hp, h1]
    rw [hstep, ih _ (fun t ht => h t (by simp [ht]))]

theorem mapIdxFrom_succ {α β : Type} (f : Nat → α → β) (p : Nat) (l : List α) :
    mapIdxFrom f (p + 1) l = mapIdxFrom (fun i a => f (i + 1) a) p l := by
  induction l generalizing p with
  | nil => rfl
  | cons a as ih => simp only [mapIdxFrom, ih (p + 1)]

open SyncApp in
theorem relabelGroup_unlabeled (g : List Tx)
    (h : ∀ t ∈ g, validLabel t.log_type = false) :
    relabelGroup g = mapIdxFrom (fun i t => setLab t (patternLabel g.length i)) 0 g := by
  match g with
  | [] => rfl
  | [t] =>
    simp [relabelGroup, singleFix, h t (by simp), mapIdxFrom, patternLabel]
  | t :: u :: rest =>
    have hn : (t :: u :: rest).length = rest.length + 2 := by simp
    set n := (t :: u :: rest).length with hndef
    have hfirst : firstFix t = setLab t "IN" := by
      simp [firstFix, h t (by simp)]
    have htail : (u :: rest) ≠ [] := List.cons_ne_nil u rest
    have hsplit : (u :: rest).dropLast ++ [(u :: rest).getLast htail] = u :: rest :=
      List.dropLast_append_getLast htail
    have hlastmem : (u :: rest).getLast htail ∈ (t :: u :: rest) := by
      have : (u :: rest).getLast htail ∈ (u :: rest) := List.getLast_mem htail
      simp [this]
    have hlast : lastFix ((u :: rest).getLast htail) =
        setLab ((u :: rest).getLast htail) "OUT" := by
      simp [lastFix, h _ hlastmem]
    have hmidmem : ∀ x ∈ (u :: rest).dropLast, validLabel x.log_type = false := by
      intro x hx
      have : x ∈ (u :: rest) := List.dropLast_subset _ hx
      exact h x (by simp [this])
    have hmidlen : (u :: rest).dropLast.length = rest.length := by simp
    show firstFix t ::
        (midWalk "IN" ((u :: rest).dropLast) ++ [lastFix ((u :: rest).getLast htail)]) = _
    rw [hfirst, hlast]
    have hmw : midWalk "IN" ((u :: rest).dropLast) =
        mapIdxFrom (fun i x => setLab x (if i % 2 = 0 then "OUT" else "IN")) 0
          ((u :: rest).dropLast) := by
      have := midWalk_unlabeled ((u :: rest).dropLast) 0 hmidmem
      simpa using this
    rw [hmw]
    conv_rhs =>
      rw [show (t :: u :: rest) =
        t :: ((u :: rest).dropLast ++ [(u :: rest).getLast htail]) from by rw [hsplit]]
    simp only [mapIdxFrom, mapIdxFrom_append, mapIdxFrom_succ]
    have hp0 : patternLabel n 0 = "IN" := by
      simp only [patternLabel, hndef, hn]
      norm_num
    rw [hp0]
    refine congrArg₂ _ rfl (congrArg₂ _ ?_ ?_)
    · refine (mapIdxFrom_congr fun i x hi1 hi2 => ?_).symm
      have hi : i < rest.length := by
        simpa [hmidlen] using hi2
      have hpat : patternLabel n (i + 1) = (if i % 2 = 0 then "OUT" else "IN") := by
        have h1 : n ≠ 1 := by omega
        have h2 : i + 1 ≠ n - 1 := by omega
        by_cases he : i % 2 = 0
        · have h3 : (i + 1) % 2 = 1 := by omega
          simp [patternLabel, h1, h2, h3, he]
        · have h3 : (i + 1) % 2 = 0 := by omega
          simp [patternLabel, h1, h2, h3, he]
      rw [hpat]
    · simp only [mapIdxFrom, hmidlen]
      have h1 : n ≠ 1 := by omega
      have h2 : rest.length + 1 = n - 1 := by omega
      simp [patternLabel, h1, h2]

open SyncApp in
theorem relabel_sort_pattern (g : List Tx)
    (hv : ∀ t ∈ g, validLabel t.log_type = false) :
    (relabelGroup (sSort g)).map Tx.log_type =
      (List.range g.length).map (fun i => some (patternLabel g.length i)) := by
  have hv' : ∀ t ∈ sSort g, validLabel t.log_type = false := fun t ht => hv t (mem_sSort ht)
  rw [relabelGroup_unlabeled (sSort g) hv', map_mapIdxFrom]
  have : (fun (i : Nat) (t : Tx) => (setLab t (patternLabel (sSort g).length i)).log_type) =
      (fun (i : Nat) (_ : Tx) => some (patternLabel (sSort g).length i)) := by
    funext i t
    rfl
  rw [this, mapIdxFrom_eq_range_map, sSort_length]
  simp

/-! ### C2 and C3: per-group label assignment -/

/-- **C2 (counterexample).** A group of 3 punches with no pre-existing labels is
labelled `IN, OUT, OUT` by the grouping normalizer: the output does not
strictly alternate ending in `OUT` as the claim states. -/
theorem normalizer_alternation_cex :
    (SyncApp.adjust_checkin_sequence [mkPunch 100, mkPunch 200, mkPunch 300]).map Tx.log_type =
      [some "IN", some "OUT", some "OUT"] ∧
    strictAltInOut
      ((SyncApp.adjust_checkin_sequence [mkPunch 100, mkPunch 200, mkPunch 300]).map
        Tx.log_type) = false := by
  decide

/-- **C2 (amended).** For an employee-day group of size N ≥ 3 with no
pre-existing valid labels, the chronologically ordered output labels follow
`patternLabel`: positions 0..N-2 strictly alternate starting with `IN`, and the
last label is `OUT` (so for odd N the final two labels are both `OUT`; full
strict alternation holds exactly when N is even). -/
theorem normalizer_alternation_first_last (g : List Tx) (h3 : 3 ≤ g.length)
    (hv : ∀ t ∈ g, SyncApp.validLabel t.log_type = false) :
    (SyncApp.relabelGroup (SyncApp.sSort g)).map Tx.log_type =
      (List.range g.length).map (fun i => some (SyncApp.patternLabel g.length i)) :=
  relabel_sort_pattern g hv

theorem normalizer_alternation_first_last_witness :
    3 ≤ ([mkPunch 100, mkPunch 200, mkPunch 300] : List Tx).length ∧
    (SyncApp.relabelGroup (SyncApp.sSort [mkPunch 100, mkPunch 200, mkPunch 300])).map
        Tx.log_type =
      (List.range ([mkPunch 100, mkPunch 200, mkPunch 300] : List Tx).length).map
        (fun i => some (SyncApp.patternLabel
          ([mkPunch 100, mkPunch 200, mkPunch 300] : List Tx).length i)) :=
  ⟨by decide,
   normalizer_alternation_first_last [mkPunch 100, mkPunch 200, mkPunch 300]
     (by decide) (by decide)⟩

/-- **C3 (counterexample).** A group of exactly 2 punches whose first punch
already carries the label `OUT` is returned as `[OUT, OUT]`, not `[IN, OUT]`:
the claim's "regardless of any labels already present" fails (the source only
forces a label when the existing one is not a valid `IN`/`OUT`). -/
theorem normalizer_pair_cex :
    (SyncApp.adjust_checkin_sequence [mkPunchL 100 "OUT", mkPunch 200]).map Tx.log_type =
      [some "OUT", some "OUT"] ∧
    (SyncApp.adjust_checkin_sequence [mkPunchL 100 "OUT", mkPunch 200]).map Tx.log_type ≠
      [some "IN", some "OUT"] := by
  decide

/-- **C3 (amended).** For an employee-day group of exactly 2 punches neither of
which already carries a valid `IN`/`OUT` label, the output is exactly
`[IN, OUT]` in chronological order. -/
theorem normalizer_pair_in_out (g : List Tx) (h2 : g.length = 2)
    (hv : ∀ t ∈ g, SyncApp.validLabel t.log_type = false) :
    (SyncApp.relabelGroup (SyncApp.sSort g)).map Tx.log_type = [some "IN", some "OUT"] := by
  have h := relabel_sort_pattern g hv
  rw [h2] at h
  rw [h]
  decide

theorem normalizer_pair_in_out_witness :
    ([mkPunch 100, mkPunch 200] : List Tx).length = 2 ∧
    (SyncApp.relabelGroup (SyncApp.sSort [mkPunch 100, mkPunch 200])).map Tx.log_type =
      [some "IN", some "OUT"] :=
  ⟨by decide, normalizer_pair_in_out [mkPunch 100, mkPunch 200] (by decide) (by decide)⟩

/-! ### Structural behaviour of the grouping normalizer on whole batches -/

open SyncApp in
theorem erase_setCopy (t src : Tx) : (setCopy t src).erase = t.erase := rfl

open SyncApp in
theorem keyOf_setCopy (t src : Tx) : keyOf (setCopy t src) = keyOf t := rfl

open SyncApp in
theorem relabelInputOrder_length (g : List Tx) :
    (relabelInputOrder g).length = g.length := by
  unfold relabelInputOrder
  exact mapIdxFrom_length _ _ _

open SyncApp in
theorem relabelInputOrder_get? (g : List Tx) (j : Nat) (t : Tx) (h : g.get? j = some t) :
    (relabelInputOrder g).get? j =
      some (match (relabelGroup (sSort g)).get? (chronoRankAt g j t) with
            | some t' => setCopy t t'
            | none => t) := by
  unfold relabelInputOrder
  rw [mapIdxFrom_get?, h]
  simp

open SyncApp in
theorem grp_get_of_split (full pre rest : List Tx) (t : Tx) (k : String × Int)
    (h : full = pre ++ t :: rest) (hk : keyOf t = some k) :
    (full.filter (fun u => decide (keyOf u = some k))).get?
      ((pre.filter (fun u => decide (keyOf u = some k))).length) = some t := by
  have hfull : full.get? pre.length = some t := by
    rw [h, List.get?_append_right (Nat.le_refl pre.length)]
    simp
  have htake : full.take pre.length = pre := by
    rw [h]
    exact List.take_left pre (t :: rest)
  have := get?_filter_take (fun u => decide (keyOf u = some k)) full pre.length t hfull
    (by simp [hk])
  rwa [htake] at this

open SyncApp in
theorem adjStep_spec (full pre rest : List Tx) (t : Tx) (k : String × Int)
    (h : full = pre ++ t :: rest) (hk : keyOf t = some k) :
    adjStep full pre t =
      (match (relabelGroup (sSort (full.filter (fun u => decide (keyOf u = some k))))).get?
          (chronoRankAt (full.filter (fun u => decide (keyOf u = some k)))
            ((pre.filter (fun u => decide (keyOf u = some k))).length) t) with
       | some t' => setCopy t t'
       | none => t) := by
  have hget := grp_get_of_split full pre rest t k h hk
  simp only [adjStep, hk]
  rw [relabelInputOrder_get? _ _ _ hget]

open SyncApp in
theorem adjStep_erase (full pre rest : List Tx) (t : Tx) (h : full = pre ++ t :: rest) :
    (adjStep full pre t).erase = t.erase := by
  cases hk : keyOf t with
  | none => simp [adjStep, hk]
  | some k =>
    rw [adjStep_spec full pre rest t k h hk]
    cases (relabelGroup (sSort (full.filter (fun u => decide (keyOf u = some k))))).get?
        (chronoRankAt (full.filter (fun u => decide (keyOf u = some k)))
          ((pre.filter (fun u => decide (keyOf u = some k))).length) t) with
    | none => rfl
    | some t' => exact erase_setCopy t t'

open SyncApp in
theorem adjStep_keyOf (full pre rest : List Tx) (t : Tx) (h : full = pre ++ t :: rest) :
    keyOf (adjStep full pre t) = keyOf t := by
  cases hk : keyOf t with
  | none => simp [adjStep, hk]
  | some k =>
    rw [adjStep_spec full pre rest t k h hk]
    cases (relabelGroup (sSort (full.filter (fun u => decide (keyOf u = some k))))).get?
        (chronoRankAt (full.filter (fun u => decide (keyOf u = some k)))
          ((pre.filter (fun u => decide (keyOf u = some k))).length) t) with
    | none => exact hk
    | some t' => exact (keyOf_setCopy t t').trans hk

open SyncApp in
theorem adjustAux_erase (full : List Tx) :
    ∀ (rest pre : List Tx), full = pre ++ rest →
    (adjustAux full pre rest).map Tx.erase = rest.map Tx.erase := by
  intro rest
  induction rest with
  | nil => intro pre _; rfl
  | cons t rest ih =>
    intro pre h
    simp only [adjustAux, List.map_cons]
    rw [adjStep_erase full pre rest t h, ih (pre ++ [t]) (by rw [h]; simp)]

/-- **C5 (amended).** The grouping copy of the normalizer returns exactly the
input records, in their original input order: erasing the label fields it wrote
(`log_type`, `_sequence_adjusted`) recovers the input list position by
position, so callers may rely on index alignment with the input. -/
theorem normalizer_output_order_preserved (ts : List Tx) :
    (SyncApp.adjust_checkin_sequence ts).map Tx.erase = ts.map Tx.erase :=
  adjustAux_erase ts ts [] rfl

/-- **C5 (counterexample).** The parity copy of the normalizer returns the
records sorted by punch time, not in input order: on the batch
`[punch@200, punch@100]` the returned records are `[punch@100, punch@200]`,
so index alignment with the input fails. -/
theorem normalizer_output_order_cex :
    (CheckinApp.adjust_checkin_sequence [mkPunch 200, mkPunch 100]).map Tx.erase ≠
      ([mkPunch 200, mkPunch 100] : List Tx).map Tx.erase := by
  decide

open SyncApp in
theorem adjustAux_filter (full : List Tx) (k : String × Int) :
    ∀ (rest pre : List Tx), full = pre ++ rest →
    (adjustAux full pre rest).filter (fun u => decide (keyOf u = some k)) =
      ((relabelInputOrder (full.filter (fun u => decide (keyOf u = some k)))).drop
          ((pre.filter (fun u => decide (keyOf u = some k))).length)).take
        ((rest.filter (fun u => decide (keyOf u = some k))).length) := by
  intro rest
  induction rest with
  | nil =>
    intro pre _
    simp [adjustAux]
  | cons t rest ih =>
    intro pre h
    have hsplit : full = (pre ++ [t]) ++ rest := by rw [h]; simp
    by_cases hk : keyOf t = some k
    · -- the head belongs to group k
      set p := fun u => decide (keyOf u = some k) with hp
      set grp := full.filter p with hgrp
      set j := (pre.filter p).length with hj
      have hget : grp.get? j = some t := grp_get_of_split full pre rest t k h hk
      have hjlt : j < grp.length := by
        have := List.get?_eq_some.mp hget
        exact this.1
      have hjlt' : j < (relabelInputOrder grp).length := by
        rwa [relabelInputOrder_length]
      -- the relabelled head
      have hrio : (relabelInputOrder grp).get? j =
          some (match (relabelGroup (sSort grp)).get? (chronoRankAt grp j t) with
                | some t' => setCopy t t'
                | none => t) := relabelInputOrder_get? grp j t hget
      have hstep : adjStep full pre t =
          (match (relabelGroup (sSort grp)).get? (chronoRankAt grp j t) with
           | some t' => setCopy t t'
           | none => t) := adjStep_spec full pre rest t k h hk
      have hkeystep : keyOf (adjStep full pre t) = some k :=
        (adjStep_keyOf full pre rest t h).trans hk
      -- counts for the recursive call
      have hprecount : ((pre ++ [t]).filter p).length = j + 1 := by
        simp [hj, List.filter_append, hp, hk]
      have hrestcount : ((t :: rest).filter p).length = (rest.filter p).length + 1 := by
        simp [List.filter_cons, hp, hk]
      -- drop decomposition
      have hdrop : (relabelInputOrder grp).drop j =
          adjStep full pre t :: (relabelInputOrder grp).drop (j + 1) := by
        rw [List.drop_eq_get_cons hjlt']
        have : (relabelInputOrder grp).get ⟨j, hjlt'⟩ = adjStep full pre t := by
          have h1 := List.get?_eq_get hjlt'
          rw [h1] at hrio
          have := Option.some.inj hrio
          rw [this, hstep]
        rw [this]
      calc (adjustAux full pre (t :: rest)).filter p
          = adjStep full pre t :: (adjustAux full (pre ++ [t]) rest).filter p := by
            simp only [adjustAux, List.filter_cons, hp, hkeystep]
            simp
        _ = adjStep full pre t ::
              ((relabelInputOrder grp).drop (j + 1)).take ((rest.filter p).length) := by
            rw [ih (pre ++ [t]) hsplit, hprecount]
        _ = ((relabelInputOrder grp).drop j).take ((rest.filter p).length + 1) := by
            rw [hdrop, List.take_succ_cons]
        _ = _ := by rw [hrestcount]
    · -- the head is not in group k
      have hkeystep : keyOf (adjStep full pre t) ≠ some k := by
        rw [adjStep_keyOf full pre rest t h]
        exact hk
      have hprecount : ((pre ++ [t]).filter (fun u => decide (keyOf u = some k))).length =
          ((pre.filter (fun u => decide (keyOf u = some k)))).length := by
        simp [List.filter_append, hk]
      have hrestcount : ((t :: rest).filter (fun u => decide (keyOf u = some k))).length =
          ((rest.filter (fun u => decide (keyOf u = some k)))).length := by
        simp [List.filter_cons, hk]
      have hkeystep2 : keyOf (adjStep full pre t) = keyOf t := adjStep_keyOf full pre rest t h
      simp only [adjustAux, List.filter_cons, decide_eq_true_eq, hkeystep2, hk, if_false]
      rw [ih (pre ++ [t]) hsplit, hprecount]

open SyncApp in
theorem adjust_filter_key (ts : List Tx) (k : String × Int) :
    (adjust_checkin_sequence ts).filter (fun u => decide (keyOf u = some k)) =
      relabelInputOrder (ts.filter (fun u => decide (keyOf u = some k))) := by
  have h := adjustAux_filter ts k ts [] rfl
  simp only [List.filter_nil, List.length_nil, List.drop_zero] at h
  rw [adjust_checkin_sequence, h,
    List.take_of_length_le (by rw [relabelInputOrder_length])]

/-! ### C4: grouping by (employee, calendar day) -/

/-- **C4 (amended).** The grouping copy of the normalizer relabels each
(employee, calendar day) group purely as a function of that group's punches:
two batches whose restrictions to the key `k` coincide yield identical
relabelled records for `k`, so one employee's labels on one day are unaffected
by that employee's punches on other days in the same batch. (The parity copy
violates this, see the counterexample.) -/
theorem normalizer_day_groups_independent (ts ts' : List Tx) (k : String × Int)
    (h : ts.filter (fun u => decide (SyncApp.keyOf u = some k)) =
         ts'.filter (fun u => decide (SyncApp.keyOf u = some k))) :
    (SyncApp.adjust_checkin_sequence ts).filter (fun u => decide (SyncApp.keyOf u = some k)) =
      (SyncApp.adjust_checkin_sequence ts').filter
        (fun u => decide (SyncApp.keyOf u = some k)) := by
  rw [adjust_filter_key, adjust_filter_key, h]

theorem normalizer_day_groups_independent_witness :
    (([mkPunch 100, mkPunch 86500] : List Tx).filter
        (fun u => decide (SyncApp.keyOf u = some ("E1", 0))) =
      ([mkPunch 100] : List Tx).filter
        (fun u => decide (SyncApp.keyOf u = some ("E1", 0)))) ∧
    (SyncApp.adjust_checkin_sequence [mkPunch 100, mkPunch 86500]).filter
        (fun u => decide (SyncApp.keyOf u = some ("E1", 0))) =
      (SyncApp.adjust_checkin_sequence [mkPunch 100]).filter
        (fun u => decide (SyncApp.keyOf u = some ("E1", 0))) :=
  ⟨by decide,
   normalizer_day_groups_independent [mkPunch 100, mkPunch 86500] [mkPunch 100]
     ("E1", 0) (by decide)⟩

/-- **C4 (counterexample).** The parity copy of the normalizer groups by
employee only: the same day-2 punch of employee `E1` (time 86500, calendar day
1) is labelled `OUT` when the batch also holds a day-0 punch, but `IN` when it
is alone — so labels of one calendar day depend on punches of other days. -/
theorem normalizer_grouping_cex :
    ((CheckinApp.adjust_checkin_sequence [mkPunch 100, mkPunch 86500]).get? 1).map
        Tx.log_type = some (some "OUT") ∧
    ((CheckinApp.adjust_checkin_sequence [mkPunch 86500]).get? 0).map
        Tx.log_type = some (some "IN") ∧
    ((CheckinApp.adjust_checkin_sequence [mkPunch 100, mkPunch 86500]).get? 1).map
        Tx.erase =
      ((CheckinApp.adjust_checkin_sequence [mkPunch 86500]).get? 0).map Tx.erase := by
  decide

open SyncApp in
theorem create_gate_spec (dupRaises : Bool) (now : Int) (emps : String → Option String)
    (t : Tx) (s : List Event) :
    create_employee_checkin dupRaises now emps t s =
      (match gateOk now emps t with
       | none => (CreateResult.ok false, s)
       | some (emp, tm, lab) =>
         if hitB emp tm lab (lookupPat t) s then (CreateResult.ok true, s)
         else if dupRaises then (CreateResult.nameErr, s)
         else (CreateResult.ok true,
           s ++ [{ employee := emp, time := tm, log_type := lab,
                   device_id := uniqueDeviceIdOf t }])) := by
  unfold create_employee_checkin gateOk
  cases htm : createTime t with
  | none => rfl
  | some tm =>
    by_cases h1 : createEmp t = ""
    · simp [h1]
    · by_cases h2 : tm > now + 86400
      · simp [h1, h2]
      · by_cases h3 : now - tm > 7776000
        · simp [h1, h2, h3]
        · cases hemp : emps (createEmp t) with
          | none => simp [h1, h2, h3, hemp]
          | some emp =>
            by_cases h4 : tm > now + 300
            · simp [h1, h2, h3, hemp, h4]
            · by_cases h5 : tm < now - 7776000
              · simp [h1, h2, h3, hemp, h4, h5]
              · simp [h1, h2, h3, hemp, h4, h5]

open SyncApp in
theorem gateOk_reject (now : Int) (emps : String → Option String) (t : Tx) (tm : Int)
    (h : createTime t = some tm) (hw : tm > now + 300 ∨ now - tm > 7776000) :
    gateOk now emps t = none := by
  unfold gateOk
  rw [h]
  by_cases h1 : createEmp t = ""
  · simp [h1]
  · by_cases h2 : tm > now + 86400
    · simp [h1, h2]
    · by_cases h3 : now - tm > 7776000
      · simp [h1, h2, h3]
      · have h4 : tm > now + 300 := by
          rcases hw with hw | hw
          · exact hw
          · omega
        cases hemp : emps (createEmp t) <;> simp [h1, h2, h3, hemp, h4]

open SyncApp in
theorem gateOk_accept (now : Int) (emps : String → Option String) (t : Tx) (tm : Int)
    (emp : String) (h : createTime t = some tm) (hne : createEmp t ≠ "")
    (hemp : emps (createEmp t) = some emp) (hw : now - 7776000 ≤ tm ∧ tm ≤ now + 300) :
    gateOk now emps t = some (emp, tm, labelOf t) := by
  unfold gateOk
  rw [h]
  simp [hne, hemp, show ¬ tm > now + 86400 from by omega,
    show ¬ now - tm > 7776000 from by omega, show ¬ tm > now + 300 from by omega,
    show ¬ tm < now - 7776000 from by omega]

/-- **C6.** The Upsert Gate rejects and never persists a punch more than
5 minutes in the future or more than 90 days in the past, and accepts a punch
inside that window when all other validity conditions hold (employee code
present and resolvable) — in both `create_employee_checkin` and
`create_checkin_from_attendance_v2`. -/
theorem upsert_time_window (dupRaises : Bool) (now : Int) (emps : String → Option String)
    (t : Tx) (s : List Event) (dev : String) (tm : Int) (c emp : String)
    (hty : t.punch_time = some tm) (hcode : t.emp_code = some c) (hcne : c ≠ "")
    (hemp : emps c = some emp) :
    ((tm > now + 300 ∨ now - tm > 7776000) →
      SyncApp.create_employee_checkin dupRaises now emps t s = (CreateResult.ok false, s) ∧
      SyncApp.create_checkin_from_attendance_v2 now emps t dev s = (false, s)) ∧
    ((now - 7776000 ≤ tm ∧ tm ≤ now + 300) →
      (SyncApp.create_employee_checkin false now emps t s).1 = CreateResult.ok true ∧
      (SyncApp.create_checkin_from_attendance_v2 now emps t dev s).1 = true) := by
  have htm : SyncApp.createTime t = some tm := by
    simp [SyncApp.createTime, hty]
  have hce : SyncApp.createEmp t = c := by
    simp [SyncApp.createEmp, pyOrStr, hcode, hcne]
  have hst : sTruthy t.emp_code = some c := by
    simp [sTruthy, hcode, hcne]
  have hv2t : (t.punch_time <|> t.timestamp) = some tm := by
    simp [hty]
  have hemps : emps (SyncApp.createEmp t) = some emp := by rw [hce]; exact hemp
  constructor
  · intro hw
    constructor
    · rw [create_gate_spec, gateOk_reject now emps t tm htm hw]
    · simp only [SyncApp.create_checkin_from_attendance_v2, hst, hemp, hv2t]
      by_cases hfut : tm > now + 300
      · simp [hfut]
      · have hpast : tm < now - 7776000 := by
          rcases hw with hw | hw
          · omega
          · omega
        simp [hfut, hpast]
  · intro hw
    constructor
    · rw [create_gate_spec,
        gateOk_accept now emps t tm emp htm (by rw [hce]; exact hcne) hemps hw]
      by_cases hH : SyncApp.hitB emp tm (SyncApp.labelOf t) (SyncApp.lookupPat t) s
      · simp [hH]
      · simp [hH]
    · simp only [SyncApp.create_checkin_from_attendance_v2, hst, hemp, hv2t]
      simp only [show ¬ tm > now + 300 from by omega, if_false,
        show ¬ tm < now - 7776000 from by omega]
      by_cases hH : (s.any (fun ev =>
          decide (ev.employee = emp) && decide (ev.time = tm) &&
          decide (ev.device_id = dev) && decide (ev.log_type = (t.log_type).getD "IN"))) = true
      · simp [hH]
      · simp [hH]

theorem upsert_time_window_witness :
    ((SyncApp.create_employee_checkin false 10000000 empsEx (mkPunch 10000360) [] =
        (CreateResult.ok false, []) ∧
      SyncApp.create_checkin_from_attendance_v2 10000000 empsEx (mkPunch 10000360) "d" [] =
        (false, [])) ∧
     (SyncApp.create_employee_checkin false 10000000 empsEx (mkPunch 10000240) []).1 =
        CreateResult.ok true ∧
     (SyncApp.create_checkin_from_attendance_v2 10000000 empsEx (mkPunch 10000240) "d" []).1 =
        true) ∧
    ((SyncApp.create_employee_checkin false 10000000 empsEx (mkPunch 2137600) [] =
        (CreateResult.ok false, []) ∧
      SyncApp.create_checkin_from_attendance_v2 10000000 empsEx (mkPunch 2137600) "d" [] =
        (false, [])) ∧
     (SyncApp.create_employee_checkin false 10000000 empsEx (mkPunch 2310400) []).1 =
        CreateResult.ok true ∧
     (SyncApp.create_checkin_from_attendance_v2 10000000 empsEx (mkPunch 2310400) "d" []).1 =
        true) :=
  ⟨⟨(upsert_time_window false 10000000 empsEx (mkPunch 10000360) [] "d" 10000360 "E1" "EMP1"
      rfl rfl (by decide) (by decide)).1 (Or.inl (by decide)),
    (upsert_time_window false 10000000 empsEx (mkPunch 10000240) [] "d" 10000240 "E1" "EMP1"
      rfl rfl (by decide) (by decide)).2 (by constructor <;> decide)⟩,
   ⟨(upsert_time_window false 10000000 empsEx (mkPunch 2137600) [] "d" 2137600 "E1" "EMP1"
      rfl rfl (by decide) (by decide)).1 (Or.inr (by decide)),
    (upsert_time_window false 10000000 empsEx (mkPunch 2310400) [] "d" 2310400 "E1" "EMP1"
      rfl rfl (by decide) (by decide)).2 (by constructor <;> decide)⟩⟩

/-- **C8.** In the `zkteco_checkins_sync` copy, a uniqueness-constraint
violation raised while creating the event is caught by an
`except frappe.DuplicateEntryError:` handler whose body reads the unbound name
`e`, so the handler itself raises `NameError` instead of logging and returning
success: evaluated at a concrete valid punch whose insert raises, the operation
ends in `nameErr` rather than `ok true`. (The sibling copy binds `e` and
returns success as the claim describes.) -/
theorem duplicate_error_name_error :
    SyncApp.create_employee_checkin true 1000 empsEx (mkPunch 100) [] =
      (CreateResult.nameErr, []) := by
  decide

open SyncApp in
theorem deviceIdOf_ne (t : Tx) : deviceIdOf t ≠ "" := by
  unfold deviceIdOf
  apply pyOrStr_ne_empty
  apply pyOrStr_ne_empty
  apply pyOrStr_ne_empty
  apply pyOrStr_ne_empty
  dsimp only
  split_ifs with h
  · decide
  · exact h

open SyncApp in
theorem tidOf_ne (t : Tx) : tidOf t ≠ "" := by
  unfold tidOf
  apply pyOrStr_ne_empty
  apply pyOrStr_ne_empty
  apply pyOrStr_ne_empty
  decide

open SyncApp in
theorem uniqueDeviceIdOf_of_short (t : Tx)
    (h : (deviceIdOf t ++ " (ZKTeco-" ++ tidOf t ++ ")").length ≤ 140) :
    uniqueDeviceIdOf t = deviceIdOf t ++ " (ZKTeco-" ++ tidOf t ++ ")" := by
  unfold uniqueDeviceIdOf
  simp only [deviceIdOf_ne t, tidOf_ne t, ne_eq, not_false_eq_true, and_self, if_true]
  rw [if_neg (by omega)]

open SyncApp in
theorem lookupPat_in_unique (t : Tx)
    (h : (deviceIdOf t ++ " (ZKTeco-" ++ tidOf t ++ ")").length ≤ 140) :
    containsSub (lookupPat t) (uniqueDeviceIdOf t) = true := by
  rw [uniqueDeviceIdOf_of_short t h]
  unfold lookupPat
  rw [if_pos (deviceIdOf_ne t)]
  rw [show deviceIdOf t ++ " (ZKTeco-" ++ tidOf t ++ ")" =
    deviceIdOf t ++ (" (ZKTeco-" ++ (tidOf t ++ ")")) from by
      rw [String.append_assoc, String.append_assoc]]
  exact containsSub_self_append _ _

open SyncApp in
theorem hitB_append {emp : String} {tm : Int} {lab pat : String} {s : List Event}
    (tl : List Event) (h : hitB emp tm lab pat s = true) :
    hitB emp tm lab pat (s ++ tl) = true := by
  unfold hitB at h ⊢
  rw [List.any_append, h]
  rfl

open SyncApp in
theorem create_extend (dupR : Bool) (now : Int) (emps : String → Option String)
    (t : Tx) (s : List Event) :
    ∃ tl, (create_employee_checkin dupR now emps t s).2 = s ++ tl := by
  rw [create_gate_spec]
  cases gateOk now emps t with
  | none => exact ⟨[], by simp⟩
  | some x =>
    obtain ⟨emp, tm, lab⟩ := x
    by_cases hH : hitB emp tm lab (lookupPat t) s
    · exact ⟨[], by simp [hH]⟩
    · by_cases hd : dupR
      · exact ⟨[], by simp [hH, hd]⟩
      · exact ⟨[{ employee := emp, time := tm, log_type := lab,
                  device_id := uniqueDeviceIdOf t }], by simp [hH, hd]⟩

open SyncApp in
theorem syncBatch_extend (now : Int) (emps : String → Option String) (ts : List Tx) :
    ∀ s, ∃ tl, syncBatch now emps s ts = s ++ tl := by
  induction ts with
  | nil => exact fun s => ⟨[], by simp [syncBatch]⟩
  | cons t rest ih =>
    intro s
    obtain ⟨tl0, h0⟩ := create_extend false now emps t s
    obtain ⟨tl1, h1⟩ := ih ((create_employee_checkin false now emps t s).2)
    refine ⟨tl0 ++ tl1, ?_⟩
    show syncBatch now emps ((create_employee_checkin false now emps t s).2) rest = _
    rw [h1, h0, List.append_assoc]

open SyncApp in
theorem syncBatch_settles (now : Int) (emps : String → Option String) (ts : List Tx)
    (hlen : ∀ t ∈ ts, (deviceIdOf t ++ " (ZKTeco-" ++ tidOf t ++ ")").length ≤ 140) :
    ∀ s, ∀ t ∈ ts, ∀ e m l, gateOk now emps t = some (e, m, l) →
      hitB e m l (lookupPat t) (syncBatch now emps s ts) = true := by
  induction ts with
  | nil => intro s t ht; cases ht
  | cons t0 rest ih =>
    intro s t ht e m l hg
    have hshow : syncBatch now emps s (t0 :: rest) =
        syncBatch now emps ((create_employee_checkin false now emps t0 s).2) rest := rfl
    rcases List.mem_cons.mp ht with rfl | hmem
    · have hpost : hitB e m l (lookupPat t)
          ((create_employee_checkin false now emps t s).2) = true := by
        rw [create_gate_spec, hg]
        by_cases hH : hitB e m l (lookupPat t) s
        · simpa [hH] using hH
        · simp only [hH, Bool.false_eq_true, if_false]
          unfold hitB
          rw [List.any_append]
          have hlast : containsSub (lookupPat t) (uniqueDeviceIdOf t) = true :=
            lookupPat_in_unique t (hlen t (by simp))
          simp [hlast]
      obtain ⟨tl, htl⟩ :=
        syncBatch_extend now emps rest ((create_employee_checkin false now emps t s).2)
      rw [hshow, htl]
      exact hitB_append tl hpost
    · rw [hshow]
      exact ih (fun u hu => hlen u (by simp [hu])) _ t hmem e m l hg

open SyncApp in
theorem syncBatch_noop (now : Int) (emps : String → Option String) (ts : List Tx)
    (s : List Event)
    (h : ∀ t ∈ ts, ∀ e m l, gateOk now emps t = some (e, m, l) →
      hitB e m l (lookupPat t) s = true) :
    syncBatch now emps s ts = s := by
  induction ts with
  | nil => rfl
  | cons t0 rest ih =>
    have hstep : (create_employee_checkin false now emps t0 s).2 = s := by
      rw [create_gate_spec]
      cases hg : gateOk now emps t0 with
      | none => rfl
      | some x =>
        obtain ⟨e, m, l⟩ := x
        have := h t0 (by simp) e m l hg
        simp [this]
    show syncBatch now emps ((create_employee_checkin false now emps t0 s).2) rest = s
    rw [hstep]
    exact ih (fun t ht e m l hg => h t (by simp [ht]) e m l hg)

/-- **C7 (amended).** Provided no stored device identifier is truncated (the
combined `device_id (ZKTeco-<id>)` string stays within Frappe's 140-character
limit), the Upsert Gate is idempotent: running it twice over the identical
punch set yields the same stored event set as running it once. Unconditionally,
whenever an event matching (employee, second-truncated timestamp, label,
device-substring) already exists, no write occurs and the operation reports
success. -/
theorem upsert_gate_idempotent (now : Int) (emps : String → Option String)
    (s : List Event) (ts : List Tx)
    (hlen : ∀ t ∈ ts,
      (SyncApp.deviceIdOf t ++ " (ZKTeco-" ++ SyncApp.tidOf t ++ ")").length ≤ 140) :
    SyncApp.syncBatch now emps (SyncApp.syncBatch now emps s ts) ts =
      SyncApp.syncBatch now emps s ts ∧
    ∀ (t : Tx) (s' : List Event) (e : String) (m : Int) (l : String),
      SyncApp.gateOk now emps t = some (e, m, l) →
      SyncApp.hitB e m l (SyncApp.lookupPat t) s' = true →
      SyncApp.create_employee_checkin false now emps t s' = (CreateResult.ok true, s') := by
  constructor
  · exact syncBatch_noop now emps ts _ (syncBatch_settles now emps ts hlen s)
  · intro t s' e m l hg hH
    rw [create_gate_spec, hg]
    simp [hH]

theorem upsert_gate_idempotent_witness :
    (∀ t ∈ ([mkPunch 100] : List Tx),
      (SyncApp.deviceIdOf t ++ " (ZKTeco-" ++ SyncApp.tidOf t ++ ")").length ≤ 140) ∧
    SyncApp.syncBatch 1000 empsEx (SyncApp.syncBatch 1000 empsEx [] [mkPunch 100])
        [mkPunch 100] =
      SyncApp.syncBatch 1000 empsEx [] [mkPunch 100] :=
  ⟨by decide, (upsert_gate_idempotent 1000 empsEx [] [mkPunch 100] (by decide)).1⟩

set_option maxRecDepth 100000 in
/-- **C7 (counterexample).** With a 136-character `terminal_alias`, the stored
`device_id` is truncated to 135 characters plus `...`, the duplicate lookup's
`%<device_id>%` pattern no longer matches the stored row, and a second run of
the Upsert Gate over the identical punch set inserts a duplicate row: running
twice differs from running once. -/
theorem upsert_gate_idempotent_cex :
    SyncApp.syncBatch 1000 empsEx (SyncApp.syncBatch 1000 empsEx [] [longAliasPunch])
        [longAliasPunch] ≠
      SyncApp.syncBatch 1000 empsEx [] [longAliasPunch] := by
  decide

/-! ### Repair pass lemmas -/

open Repair in
theorem updRow_employee (us : List (Nat × String)) (r : ECheckin) :
    (updRow us r).employee = r.employee := by
  unfold updRow
  cases us.lookup r.name <;> rfl

open Repair in
theorem updRow_time (us : List (Nat × String)) (r : ECheckin) :
    (updRow us r).time = r.time := by
  unfold updRow
  cases us.lookup r.name <;> rfl

open Repair in
theorem updRow_name (us : List (Nat × String)) (r : ECheckin) :
    (updRow us r).name = r.name := by
  unfold updRow
  cases us.lookup r.name <;> rfl

open Repair in
theorem updRow_rKey (us : List (Nat × String)) (r : ECheckin) :
    rKey (updRow us r) = rKey r := by
  unfold rKey
  rw [updRow_employee, updRow_time]

open Repair in
theorem updRow_eq_set (us : List (Nat × String)) (r : ECheckin) :
    ∃ l, updRow us r = { r with log_type := l } := by
  unfold updRow
  cases us.lookup r.name with
  | none => exact ⟨r.log_type, rfl⟩
  | some l => exact ⟨l, rfl⟩

theorem filter_map_general {α β : Type} (f : α → β) (p : β → Bool) (l : List α) :
    (l.map f).filter p = (l.filter (fun a => p (f a))).map f := by
  induction l with
  | nil => rfl
  | cons a as ih =>
    by_cases h : p (f a) = true
    · simp [List.filter_cons, h, ih]
    · simp only [Bool.not_eq_true] at h
      simp [List.filter_cons, h, ih]

open Repair in
theorem empTimeLe_updRow (us : List (Nat × String)) (a b : ECheckin) :
    empTimeLe (updRow us a) (updRow us b) ↔ empTimeLe a b := by
  unfold empTimeLe
  rw [updRow_employee, updRow_employee, updRow_time, updRow_time]

open Repair in
theorem rInsert_map_updRow (us : List (Nat × String)) (r : ECheckin) (l : List ECheckin) :
    rInsert (updRow us r) (l.map (updRow us)) = (rInsert r l).map (updRow us) := by
  induction l with
  | nil => rfl
  | cons u ul ih =>
    by_cases h : empTimeLe r u
    · rw [List.map_cons]
      unfold rInsert
      rw [if_pos ((empTimeLe_updRow us r u).mpr h), if_pos h, List.map_cons, List.map_cons]
    · rw [List.map_cons]
      unfold rInsert
      rw [if_neg (fun hc => h ((empTimeLe_updRow us r u).mp hc)), if_neg h, List.map_cons, ih]

open Repair in
theorem rSort_map_updRow (us : List (Nat × String)) (l : List ECheckin) :
    rSort (l.map (updRow us)) = (rSort l).map (updRow us) := by
  induction l with
  | nil => rfl
  | cons r rl ih =>
    show rInsert (updRow us r) ((rl.map (updRow us)) |> rSort) = _
    rw [show rSort (rl.map (updRow us)) = (rSort rl).map (updRow us) from ih]
    exact rInsert_map_updRow us r (rSort rl)

open Repair in
theorem tInsert_map_updRow (us : List (Nat × String)) (r : ECheckin) (l : List ECheckin) :
    tInsert (updRow us r) (l.map (updRow us)) = (tInsert r l).map (updRow us) := by
  induction l with
  | nil => rfl
  | cons u ul ih =>
    by_cases h : r.time ≤ u.time
    · rw [List.map_cons]
      unfold tInsert
      rw [if_pos (by rw [updRow_time, updRow_time]; exact h), if_pos h,
        List.map_cons, List.map_cons]
    · rw [List.map_cons]
      unfold tInsert
      rw [if_neg (by rw [updRow_time, updRow_time]; exact h), if_neg h, List.map_cons, ih]

open Repair in
theorem tSort_map_updRow (us : List (Nat × String)) (l : List ECheckin) :
    tSort (l.map (updRow us)) = (tSort l).map (updRow us) := by
  induction l with
  | nil => rfl
  | cons r rl ih =>
    show tInsert (updRow us r) ((rl.map (updRow us)) |> tSort) = _
    rw [show tSort (rl.map (updRow us)) = (tSort rl).map (updRow us) from ih]
    exact tInsert_map_updRow us r (tSort rl)

open Repair in
theorem rInsert_perm (r : ECheckin) (l : List ECheckin) : (rInsert r l).Perm (r :: l) := by
  induction l with
  | nil => exact List.Perm.refl _
  | cons u us ih =>
    unfold rInsert
    by_cases h : empTimeLe r u
    · simp [h]
    · simp only [h, if_false]
      exact (ih.cons u).trans (List.Perm.swap r u us)

open Repair in
theorem rSort_perm (l : List ECheckin) : (rSort l).Perm l := by
  induction l with
  | nil => exact List.Perm.refl _
  | cons r rl ih => exact (rInsert_perm r (rSort rl)).trans (ih.cons r)

open Repair in
theorem tInsert_perm (r : ECheckin) (l : List ECheckin) : (tInsert r l).Perm (r :: l) := by
  induction l with
  | nil => exact List.Perm.refl _
  | cons u us ih =>
    unfold tInsert
    by_cases h : r.time ≤ u.time
    · simp [h]
    · simp only [h, if_false]
      exact (ih.cons u).trans (List.Perm.swap r u us)

open Repair in
theorem tSort_perm (l : List ECheckin) : (tSort l).Perm l := by
  induction l with
  | nil => exact List.Perm.refl _
  | cons r rl ih => exact (tInsert_perm r (tSort rl)).trans (ih.cons r)

theorem mem_firstDedup {α : Type} [DecidableEq α] {a : α} {l : List α} :
    a ∈ firstDedup l ↔ a ∈ l := by
  induction l with
  | nil => simp [firstDedup]
  | cons b bl ih =>
    simp only [firstDedup, List.mem_cons]
    constructor
    · rintro (rfl | h)
      · exact Or.inl rfl
      · exact Or.inr (ih.mp (List.mem_of_mem_filter h))
    · rintro (rfl | h)
      · exact Or.inl rfl
      · by_cases hab : a = b
        · exact Or.inl hab
        · refine Or.inr (List.mem_filter.mpr ⟨ih.mpr h, by simp [hab]⟩)

theorem firstDedup_nodup {α : Type} [DecidableEq α] (l : List α) :
    (firstDedup l).Nodup := by
  induction l with
  | nil => simp [firstDedup]
  | cons b bl ih =>
    simp only [firstDedup]
    refine List.Nodup.cons ?_ (List.Nodup.filter _ ih)
    intro hmem
    have := List.of_mem_filter hmem
    simp at this

open Repair in
theorem groupUpdatesAux_names (n : Nat) :
    ∀ (i : Nat) (g : List ECheckin) (nm : Nat) (v : String),
      (nm, v) ∈ groupUpdatesAux n i g → nm ∈ g.map ECheckin.name := by
  intro i g
  induction g generalizing i with
  | nil => intro nm v h; simp [groupUpdatesAux] at h
  | cons a g ih =>
    intro nm v h
    unfold groupUpdatesAux at h
    by_cases ha : a.log_type = correctAt n i
    · rw [if_pos ha] at h
      exact List.mem_cons_of_mem _ (ih (i + 1) nm v h)
    · rw [if_neg ha] at h
      rcases List.mem_cons.mp h with heq | h
      · simp only [Prod.mk.injEq] at heq
        simp [heq.1]
      · exact List.mem_cons_of_mem _ (ih (i + 1) nm v h)

theorem lookup_none_of_names {β : Type} (a : Nat) (l : List (Nat × β))
    (h : ∀ x ∈ l, x.1 ≠ a) : l.lookup a = none := by
  induction l with
  | nil => rfl
  | cons p rest ih =>
    obtain ⟨k, v⟩ := p
    have hk : k ≠ a := h (k, v) (by simp)
    simp only [List.lookup]
    rw [show (a == k) = false from by simp; exact fun he => hk he.symm]
    exact ih (fun x hx => h x (by simp [hx]))

theorem lookup_append_split {β : Type} (a : Nat) (l₁ l₂ : List (Nat × β)) :
    (l₁ ++ l₂).lookup a =
      match l₁.lookup a with
      | some v => some v
      | none => l₂.lookup a := by
  induction l₁ with
  | nil => simp [List.lookup]
  | cons p rest ih =>
    obtain ⟨k, v⟩ := p
    simp only [List.cons_append, List.lookup]
    cases a == k
    · exact ih
    · rfl

open Repair in
theorem groupUpdatesAux_lookup (n : Nat) (g : List ECheckin)
    (hnd : (g.map ECheckin.name).Nodup) :
    ∀ (i j : Nat) (r : ECheckin), g.get? j = some r →
      (groupUpdatesAux n i g).lookup r.name =
        if r.log_type = correctAt n (i + j) then none else some (correctAt n (i + j)) := by
  induction g with
  | nil => intro i j r h; simp at h
  | cons a g ih =>
    intro i j r h
    have hnd' : (g.map ECheckin.name).Nodup := (List.nodup_cons.mp hnd).2
    have hna : a.name ∉ g.map ECheckin.name := (List.nodup_cons.mp hnd).1
    cases j with
    | zero =>
      simp only [List.get?] at h
      cases h
      unfold groupUpdatesAux
      by_cases ha : a.log_type = correctAt n i
      · rw [if_pos ha, if_pos (by simpa using ha)]
        refine lookup_none_of_names _ _ (fun x hx => ?_)
        intro hxa
        exact hna (hxa ▸ groupUpdatesAux_names n (i + 1) g x.1 x.2 (by simpa using hx))
      · rw [if_neg ha, if_neg (by simpa using ha)]
        simp [List.lookup]
    | succ j =>
      simp only [List.get?] at h
      have hrg : r ∈ g := List.get?_mem h
      have hrname : r.name ∈ g.map ECheckin.name := List.mem_map_of_mem _ hrg
      have hne : a.name ≠ r.name := fun he => hna (he ▸ hrname)
      unfold groupUpdatesAux
      have hij : i + 1 + j = i + (j + 1) := by omega
      by_cases ha : a.log_type = correctAt n i
      · rw [if_pos ha]
        rw [ih hnd' (i + 1) j r h, hij]
      · rw [if_neg ha]
        simp only [List.lookup]
        rw [show (r.name == a.name) = false from by simp; exact fun he => hne he.symm]
        rw [ih hnd' (i + 1) j r h, hij]

open Repair in
theorem groupUpdatesAux_nil_of_correct (n : Nat) (g : List ECheckin) :
    ∀ (i : Nat), (∀ (j : Nat) (r : ECheckin), g.get? j = some r →
      r.log_type = correctAt n (i + j)) → groupUpdatesAux n i g = [] := by
  induction g with
  | nil => intro i _; rfl
  | cons a g ih =>
    intro i h
    unfold groupUpdatesAux
    rw [if_pos (by simpa using h 0 a rfl)]
    exact ih (i + 1) (fun j r hj => by
      have := h (j + 1) r (by simpa using hj)
      rwa [show i + (j + 1) = i + 1 + j from by omega] at this)

theorem bind_nil_of_all {α β : Type} (l : List α) (f : α → List β)
    (h : ∀ a ∈ l, f a = []) : l.bind f = [] := by
  induction l with
  | nil => rfl
  | cons a as ih =>
    rw [show (a :: as).bind f = f a ++ as.bind f from rfl, h a (by simp),
      ih (fun x hx => h x (by simp [hx]))]
    rfl

theorem bind_append_split {α β : Type} (l₁ l₂ : List α) (f : α → List β) :
    (l₁ ++ l₂).bind f = l₁.bind f ++ l₂.bind f := by
  induction l₁ with
  | nil => rfl
  | cons a as ih =>
    rw [show ((a :: as) ++ l₂) = a :: (as ++ l₂) from rfl,
      show (a :: (as ++ l₂)).bind f = f a ++ (as ++ l₂).bind f from rfl, ih,
      show (a :: as).bind f = f a ++ as.bind f from rfl, List.append_assoc]

open Repair in
theorem groupUpdates_name_row (rows : List ECheckin) (k' : String × Int)
    (x : Nat × String)
    (hx : x ∈ groupUpdates (tSort (rows.filter (fun r => decide (rKey r = k'))))) :
    ∃ r' ∈ rows, rKey r' = k' ∧ r'.name = x.1 := by
  obtain ⟨nm, v⟩ := x
  have hnm := groupUpdatesAux_names _ 0 _ nm v hx
  obtain ⟨r', hr', hname⟩ := List.mem_map.mp hnm
  have hmem' : r' ∈ rows.filter (fun r => decide (rKey r = k')) := (tSort_perm _).mem_iff.mp hr'
  have hmem := List.mem_filter.mp hmem'
  exact ⟨r', hmem.1, by simpa using hmem.2, hname⟩

open Repair in
theorem repairUpdates_lookup (rows : List ECheckin)
    (hnd : (rows.map ECheckin.name).Nodup) (k : String × Int) (j : Nat) (r : ECheckin)
    (hr : (tSort (rows.filter (fun u => decide (rKey u = k)))).get? j = some r) :
    (repairUpdates rows).lookup r.name =
      (if r.log_type =
          correctAt (tSort (rows.filter (fun u => decide (rKey u = k)))).length j then none
       else some (correctAt (tSort (rows.filter (fun u => decide (rKey u = k)))).length j)) := by
  set g := tSort (rows.filter (fun u => decide (rKey u = k))) with hg
  have hrg : r ∈ g := List.get?_mem hr
  have hrfil : r ∈ rows.filter (fun u => decide (rKey u = k)) := (tSort_perm _).mem_iff.mp hrg
  have hrmem := List.mem_filter.mp hrfil
  have hrk : rKey r = k := by simpa using hrmem.2
  have hrrows : r ∈ rows := hrmem.1
  have hkmem : k ∈ firstDedup (rows.map rKey) :=
    mem_firstDedup.mpr (hrk ▸ List.mem_map_of_mem rKey hrrows)
  have hksnd : (firstDedup (rows.map rKey)).Nodup := firstDedup_nodup _
  obtain ⟨ks₁, ks₂, hks⟩ := List.append_of_mem hkmem
  have hnotin1 : k ∉ ks₁ := by
    rw [hks] at hksnd
    have := (List.nodup_append.mp hksnd).2.2
    intro hmem
    exact this hmem (by simp)
  have hnotin2 : k ∉ ks₂ := by
    rw [hks] at hksnd
    have := (List.nodup_append.mp hksnd).2.1
    exact (List.nodup_cons.mp this).1
  have hndg : (g.map ECheckin.name).Nodup := by
    have h1 : ((rows.filter (fun u => decide (rKey u = k))).map ECheckin.name).Nodup :=
      ((List.filter_sublist rows).map ECheckin.name).nodup hnd
    exact ((tSort_perm (rows.filter (fun u => decide (rKey u = k)))).map
      ECheckin.name).nodup_iff.mpr h1
  have hcross : ∀ (ks' : List (String × Int)), k ∉ ks' →
      (ks'.bind (fun k' =>
        groupUpdates (tSort (rows.filter (fun u => decide (rKey u = k')))))).lookup r.name =
        none := by
    intro ks' hkn
    refine lookup_none_of_names _ _ (fun x hx => ?_)
    obtain ⟨k', hk', hxk⟩ := List.mem_bind.mp hx
    obtain ⟨r', hr'rows, hr'k, hr'name⟩ := groupUpdates_name_row rows k' x hxk
    intro hxa
    have : r' = r := List.inj_on_of_nodup_map hnd hr'rows hrrows (by rw [hr'name, hxa])
    rw [this, hrk] at hr'k
    exact hkn (hr'k ▸ hk')
  unfold repairUpdates
  rw [hks, bind_append_split,
    show ((k :: ks₂).bind (fun k' =>
      groupUpdates (tSort (rows.filter (fun u => decide (rKey u = k')))))) =
      groupUpdates g ++ ks₂.bind (fun k' =>
        groupUpdates (tSort (rows.filter (fun u => decide (rKey u = k'))))) from rfl]
  rw [lookup_append_split, hcross ks₁ hnotin1]
  rw [lookup_append_split]
  unfold groupUpdates
  rw [groupUpdatesAux_lookup g.length g hndg 0 j r hr]
  by_cases hc : r.log_type = correctAt g.length j
  · rw [if_pos (by simpa using hc), if_pos hc]
    show List.lookup r.name (ks₂.bind fun k' =>
      groupUpdates (tSort (rows.filter (fun u => decide (rKey u = k'))))) = none
    exact hcross ks₂ hnotin2
  · rw [if_neg (by simpa using hc), if_neg hc]
    show some (correctAt g.length (0 + j)) = some (correctAt g.length j)
    rw [Nat.zero_add]

open Repair in
theorem updRow_correct_at (rows : List ECheckin) (hnd : (rows.map ECheckin.name).Nodup)
    (k : String × Int) (j : Nat) (r : ECheckin)
    (hr : (tSort (rows.filter (fun u => decide (rKey u = k)))).get? j = some r) :
    (updRow (repairUpdates rows) r).log_type =
      correctAt (tSort (rows.filter (fun u => decide (rKey u = k)))).length j := by
  unfold updRow
  rw [repairUpdates_lookup rows hnd k j r hr]
  by_cases hc : r.log_type =
      correctAt (tSort (rows.filter (fun u => decide (rKey u = k)))).length j
  · rw [if_pos hc]
    exact hc
  · rw [if_neg hc]

/-- **C9.** The Backfill/Repair Pass is idempotent: after one non-dry-run
application over stored rows with distinct names (under a retrieval filter that
does not read the label), a second run computes zero update instructions. -/
theorem repair_pass_idempotent (flt : Repair.ECheckin → Bool) (s : List Repair.ECheckin)
    (hnd : (s.map Repair.ECheckin.name).Nodup)
    (hflt : ∀ (r : Repair.ECheckin) (l : String), flt { r with log_type := l } = flt r) :
    (Repair.fix_existing_checkins flt ((Repair.fix_existing_checkins flt s).2)).1 = [] := by
  unfold Repair.fix_existing_checkins
  set rows := Repair.rSort (s.filter flt) with hrowsdef
  set us := Repair.repairUpdates rows with husdef
  have hndrows : (rows.map Repair.ECheckin.name).Nodup := by
    have h1 : ((s.filter flt).map Repair.ECheckin.name).Nodup :=
      ((List.filter_sublist s).map Repair.ECheckin.name).nodup hnd
    exact ((rSort_perm (s.filter flt)).map Repair.ECheckin.name).nodup_iff.mpr h1
  have hfilt : (Repair.applyUpdates us s).filter flt = (s.filter flt).map (Repair.updRow us) := by
    unfold Repair.applyUpdates
    rw [filter_map_general (Repair.updRow us) flt s]
    have : s.filter (fun a => flt (Repair.updRow us a)) = s.filter flt := by
      refine List.filter_congr (fun a _ => ?_)
      obtain ⟨l, hl⟩ := updRow_eq_set us a
      rw [hl, hflt a l]
    rw [this]
  have hrows2 : Repair.rSort ((Repair.applyUpdates us s).filter flt) =
      rows.map (Repair.updRow us) := by
    rw [hfilt, rSort_map_updRow]
  rw [hrows2]
  -- the second-run keys coincide with the first-run keys
  have hkeys : (rows.map (Repair.updRow us)).map Repair.rKey = rows.map Repair.rKey := by
    rw [List.map_map]
    exact List.map_congr_left (fun r _ => updRow_rKey us r)
  unfold Repair.repairUpdates
  rw [hkeys]
  refine bind_nil_of_all _ _ (fun k hk => ?_)
  -- the second-run group is the updated first-run group
  have hgrp : (rows.map (Repair.updRow us)).filter (fun u => decide (Repair.rKey u = k)) =
      (rows.filter (fun u => decide (Repair.rKey u = k))).map (Repair.updRow us) := by
    rw [filter_map_general]
    refine congrArg _ (List.filter_congr (fun a _ => ?_))
    rw [updRow_rKey us a]
  rw [hgrp, tSort_map_updRow]
  set g := Repair.tSort (rows.filter (fun u => decide (Repair.rKey u = k))) with hgdef
  unfold Repair.groupUpdates
  refine groupUpdatesAux_nil_of_correct _ _ 0 (fun j r' hj => ?_)
  rw [List.get?_map] at hj
  cases hg : g.get? j with
  | none => rw [hg] at hj; simp at hj
  | some r =>
    rw [hg] at hj
    simp only [Option.map_some'] at hj
    cases hj
    rw [Nat.zero_add, List.length_map]
    exact updRow_correct_at rows hndrows k j r hg

theorem repair_pass_idempotent_witness :
    ((([mkRow 1 100 "IN", mkRow 2 200 "IN", mkRow 3 300 "IN"] : List Repair.ECheckin).map
        Repair.ECheckin.name).Nodup ∧
      ∀ (r : Repair.ECheckin) (l : String), rowFilter { r with log_type := l } = rowFilter r) ∧
    (Repair.fix_existing_checkins rowFilter
      ((Repair.fix_existing_checkins rowFilter
        [mkRow 1 100 "IN", mkRow 2 200 "IN", mkRow 3 300 "IN"]).2)).1 = [] :=
  ⟨⟨by decide, fun r l => rfl⟩,
   repair_pass_idempotent rowFilter [mkRow 1 100 "IN", mkRow 2 200 "IN", mkRow 3 300 "IN"]
     (by decide) (fun r l => rfl)⟩

theorem length_filter_add_le {α : Type} (p q : α → Bool) (l : List α)
    (h : ∀ a ∈ l, ¬(p a = true ∧ q a = true)) :
    (l.filter p).length + (l.filter q).length ≤ l.length := by
  induction l with
  | nil => simp
  | cons a as ih =>
    have hih := ih (fun x hx => h x (by simp [hx]))
    by_cases hp : p a = true
    · have hq : q a = false := by
        rcases Bool.eq_false_or_eq_true (q a) with hq | hq
        · exact absurd ⟨hp, hq⟩ (h a (by simp))
        · exact hq
      simp only [List.filter_cons, hp, hq, if_true, if_false, Bool.false_eq_true,
        List.length_cons]
      omega
    · simp only [Bool.not_eq_true] at hp
      by_cases hq : q a = true
      · simp only [List.filter_cons, hp, hq, Bool.false_eq_true, if_false, if_true,
          List.length_cons]
        omega
      · simp only [Bool.not_eq_true] at hq
        simp only [List.filter_cons, hp, hq, Bool.false_eq_true, if_false, List.length_cons]
        omega

open SyncApp in
theorem chronoRankAt_lt (g : List Tx) (j : Nat) (t : Tx) (h : g.get? j = some t) :
    chronoRankAt g j t < g.length := by
  have hj : j < g.length := (List.get?_eq_some.mp h).1
  have hdrop : g.drop j = t :: g.drop (j + 1) := by
    rw [List.drop_eq_get_cons hj]
    have := List.get?_eq_get hj
    rw [h] at this
    rw [show g.get ⟨j, hj⟩ = t from (Option.some.inj this).symm]
  have hsplit : g.take j ++ t :: g.drop (j + 1) = g := by
    rw [← hdrop, List.take_append_drop]
  unfold chronoRankAt
  have hA : (g.filter (fun u => decide (timeKey u < timeKey t))).length =
      ((g.take j).filter (fun u => decide (timeKey u < timeKey t))).length +
      ((g.drop (j + 1)).filter (fun u => decide (timeKey u < timeKey t))).length := by
    conv_lhs => rw [← hsplit]
    rw [List.filter_append, List.filter_cons]
    simp
  rw [hA]
  have hdisj := length_filter_add_le (fun u => decide (timeKey u < timeKey t))
    (fun u => decide (timeKey u = timeKey t)) (g.take j)
    (fun a _ => by
      simp only [decide_eq_true_eq]
      rintro ⟨h1, h2⟩
      omega)
  have hlen1 : (g.take j).length = j := by
    rw [List.length_take]
    omega
  have hlen2 : ((g.drop (j + 1)).filter (fun u => decide (timeKey u < timeKey t))).length ≤
      g.length - j - 1 := by
    calc _ ≤ (g.drop (j + 1)).length := List.length_filter_le _ _
    _ = g.length - (j + 1) := List.length_drop _ _
    _ = g.length - j - 1 := by omega
  omega

open SyncApp in
theorem setCopy_setLab (t y : Tx) (l : String) : setCopy t (setLab y l) = setLab t l := rfl

open SyncApp in
theorem relabelInputOrder_unlabeled_get (g : List Tx)
    (hv : ∀ u ∈ g, validLabel u.log_type = false) (j : Nat) (t : Tx)
    (h : g.get? j = some t) :
    (relabelInputOrder g).get? j =
      some (setLab t (patternLabel g.length (chronoRankAt g j t))) := by
  unfold relabelInputOrder
  rw [mapIdxFrom_get?, h]
  simp only [Option.map_some', Nat.zero_add]
  have hrank : chronoRankAt g j t < (sSort g).length := by
    rw [sSort_length]
    exact chronoRankAt_lt g j t h
  rw [relabelGroup_unlabeled (sSort g) (fun u hu => hv u (mem_sSort hu)), mapIdxFrom_get?]
  have hy := List.get?_eq_get hrank
  rw [hy]
  simp only [Option.map_some', Nat.zero_add]
  rw [setCopy_setLab, sSort_length]

open SyncApp in
theorem adjustAux_get? (full : List Tx) :
    ∀ (rest pre : List Tx) (j : Nat),
      (adjustAux full pre rest).get? j =
        (rest.get? j).map (fun t => adjStep full (pre ++ rest.take j) t) := by
  intro rest
  induction rest with
  | nil => intro pre j; simp [adjustAux]
  | cons t rest ih =>
    intro pre j
    cases j with
    | zero => simp [adjustAux]
    | succ j =>
      show (adjustAux full (pre ++ [t]) rest).get? j = _
      rw [ih (pre ++ [t]) j]
      simp only [List.get?, List.take_succ_cons]
      rw [List.append_assoc]
      rfl

open SyncApp in
theorem createEmp_setLab (t : Tx) (l : String) : createEmp (setLab t l) = createEmp t := rfl

open SyncApp in
theorem createTime_setLab (t : Tx) (l : String) : createTime (setLab t l) = createTime t := rfl

open SyncApp in
theorem keyOf_setLab (t : Tx) (l : String) : keyOf (setLab t l) = keyOf t := rfl

open SyncApp in
theorem timeKey_setLab (t : Tx) (l : String) : timeKey (setLab t l) = timeKey t := rfl

open SyncApp in
theorem createEmp_of_code {t : Tx} {c : String} (h : t.emp_code = some c) (hc : c ≠ "") :
    createEmp t = c := by
  simp [createEmp, pyOrStr, h, hc]

open SyncApp in
theorem createTime_of_pt {t : Tx} {tm : Int} (h : t.punch_time = some tm) :
    createTime t = some tm := by
  simp [createTime, h]

open SyncApp in
theorem keyOf_of_fields {t : Tx} {c : String} {tm : Int} (hc : t.emp_code = some c)
    (hcne : c ≠ "") (ht : t.punch_time = some tm) :
    keyOf t = some (c, dayKey tm) := by
  unfold keyOf txEmp txRawTime
  rw [hc, ht]
  simp [pyOrOpt, sTruthy, hcne]

open SyncApp in
theorem timeKey_of_pt {t : Tx} {tm : Int} (h : t.punch_time = some tm) : timeKey t = tm := by
  unfold timeKey txRawTime
  rw [h]
  rfl

open SyncApp in
theorem labelOf_setLab (t : Tx) {l : String} (hl : l ≠ "") : labelOf (setLab t l) = l := by
  unfold labelOf
  rw [if_pos ⟨rfl, by simp [sTruthy, setLab, hl]⟩]
  rfl

open SyncApp in
theorem patternLabel_ne_empty (n i : Nat) : patternLabel n i ≠ "" := by
  unfold patternLabel
  split_ifs <;> decide

open SyncApp in
theorem adjust_get_spec (batch : List Tx) (i : Nat) (t : Tx) (k : String × Int)
    (hb : batch.get? i = some t) (hk : keyOf t = some k)
    (hv : ∀ u ∈ batch, validLabel u.log_type = false) :
    (adjust_checkin_sequence batch).get? i =
      some (setLab t (patternLabel
        (batch.filter (fun u => decide (keyOf u = some k))).length
        (chronoRankAt (batch.filter (fun u => decide (keyOf u = some k)))
          ((batch.take i).filter (fun u => decide (keyOf u = some k))).length t))) := by
  have hi : i < batch.length := (List.get?_eq_some.mp hb).1
  have hdrop : batch.drop i = t :: batch.drop (i + 1) := by
    rw [List.drop_eq_get_cons hi]
    have := List.get?_eq_get hi
    rw [hb] at this
    rw [show batch.get ⟨i, hi⟩ = t from (Option.some.inj this).symm]
  have hsplit : batch = batch.take i ++ t :: batch.drop (i + 1) := by
    rw [← hdrop, List.take_append_drop]
  unfold adjust_checkin_sequence
  rw [adjustAux_get? batch batch [] i, hb]
  simp only [Option.map_some', List.nil_append]
  have hgrp : (batch.filter (fun u => decide (keyOf u = some k))).get?
      ((batch.take i).filter (fun u => decide (keyOf u = some k))).length = some t :=
    grp_get_of_split batch (batch.take i) (batch.drop (i + 1)) t k hsplit hk
  have hvg : ∀ u ∈ batch.filter (fun u => decide (keyOf u = some k)),
      validLabel u.log_type = false :=
    fun u hu => hv u (List.mem_of_mem_filter hu)
  have hrio := relabelInputOrder_unlabeled_get _ hvg _ t hgrp
  simp only [adjStep, hk, hrio]

open SyncApp in
theorem adjustAux_length (full : List Tx) :
    ∀ (rest pre : List Tx), (adjustAux full pre rest).length = rest.length := by
  intro rest
  induction rest with
  | nil => intro pre; rfl
  | cons t rest ih => intro pre; simp [adjustAux, ih]

open SyncApp in
theorem adjust_length (ts : List Tx) :
    (adjust_checkin_sequence ts).length = ts.length := by
  unfold adjust_checkin_sequence
  exact adjustAux_length ts ts []

theorem get_split {α : Type} {l : List α} {j : Nat} {t : α} (h : l.get? j = some t) :
    l = l.take j ++ t :: l.drop (j + 1) := by
  have hj : j < l.length := (List.get?_eq_some.mp h).1
  have hdrop : l.drop j = t :: l.drop (j + 1) := by
    rw [List.drop_eq_get_cons hj]
    have := List.get?_eq_get hj
    rw [h] at this
    rw [show l.get ⟨j, hj⟩ = t from (Option.some.inj this).symm]
  rw [← hdrop, List.take_append_drop]

theorem mem_take_get? {α : Type} {l : List α} {j : Nat} {u : α} (h : u ∈ l.take j) :
    ∃ i, i < j ∧ l.get? i = some u := by
  obtain ⟨i, hi⟩ := List.mem_iff_get?.mp h
  have hij : i < (l.take j).length := (List.get?_eq_some.mp hi).1
  have hlt : i < j := lt_of_lt_of_le hij (by simp [List.length_take])
  exact ⟨i, hlt, by rwa [List.get?_take hlt] at hi⟩

open SyncApp in
theorem take_filter_time_nil (g : List Tx) (j : Nat) (t : Tx)
    (hj : g.get? j = some t)
    (hd : ∀ i l (u v : Tx), g.get? i = some u → g.get? l = some v → i ≠ l →
      timeKey u ≠ timeKey v) :
    (g.take j).filter (fun u => decide (timeKey u = timeKey t)) = [] := by
  rw [List.filter_eq_nil]
  intro u hu
  obtain ⟨i, hij, hi⟩ := mem_take_get? hu
  simpa using hd i j u t hi hj (Nat.ne_of_lt hij)

open SyncApp in
theorem chronoRankAt_min (g : List Tx) (j : Nat) (t : Tx)
    (hj : g.get? j = some t)
    (hd : ∀ i l (u v : Tx), g.get? i = some u → g.get? l = some v → i ≠ l →
      timeKey u ≠ timeKey v)
    (hmin : ∀ u ∈ g, timeKey t ≤ timeKey u) :
    chronoRankAt g j t = 0 := by
  unfold chronoRankAt
  rw [take_filter_time_nil g j t hj hd]
  rw [List.filter_eq_nil.mpr (fun u hu => by simpa using not_lt.mpr (hmin u hu))]
  rfl

open SyncApp in
theorem chronoRankAt_max (g : List Tx) (j : Nat) (t : Tx)
    (hj : g.get? j = some t)
    (hd : ∀ i l (u v : Tx), g.get? i = some u → g.get? l = some v → i ≠ l →
      timeKey u ≠ timeKey v)
    (hmax : ∀ u ∈ g, timeKey u ≤ timeKey t) :
    chronoRankAt g j t = g.length - 1 := by
  have hjl : j < g.length := (List.get?_eq_some.mp hj).1
  unfold chronoRankAt
  rw [take_filter_time_nil g j t hj hd]
  simp only [List.length_nil, Nat.add_zero]
  have htk : (g.take j).filter (fun u => decide (timeKey u < timeKey t)) = g.take j := by
    rw [List.filter_eq_self]
    intro u hu
    obtain ⟨i, hij, hi⟩ := mem_take_get? hu
    have hne := hd i j u t hi hj (Nat.ne_of_lt hij)
    have hle := hmax u (List.mem_of_mem_take hu)
    simp only [decide_eq_true_eq]
    omega
  have hdk : (g.drop (j + 1)).filter (fun u => decide (timeKey u < timeKey t)) =
      g.drop (j + 1) := by
    rw [List.filter_eq_self]
    intro u hu
    obtain ⟨i, hi⟩ := List.mem_iff_get?.mp hu
    rw [List.get?_drop] at hi
    have hne := hd (j + 1 + i) j u t hi hj (by omega)
    have hle := hmax u (by
      have := List.get?_mem hi
      exact this)
    simp only [decide_eq_true_eq]
    omega
  conv_lhs => rw [get_split hj]
  rw [List.filter_append, List.filter_cons]
  simp only [decide_eq_true_eq, lt_self_iff_false, if_false, htk, hdk]
  rw [List.length_append, List.length_take, List.length_drop]
  omega

open SyncApp in
theorem gateOk_of_window {now : Int} {emps : String → Option String} {t : Tx}
    {c : String} {tm : Int} {emp : String}
    (hc : createEmp t = c) (hcne : c ≠ "") (ht : createTime t = some tm)
    (hlo : now - 7776000 ≤ tm) (hhi : tm ≤ now + 300) (he : emps c = some emp) :
    gateOk now emps t = some (emp, tm, labelOf t) := by
  simp only [gateOk, ht, hc, he]
  rw [if_neg hcne, if_neg (by omega), if_neg (by omega), if_neg (by omega), if_neg (by omega)]

open SyncApp in
theorem gateOk_elim {now : Int} {emps : String → Option String} {t : Tx}
    {emp : String} {tm : Int} {lab : String}
    (h : gateOk now emps t = some (emp, tm, lab)) :
    createTime t = some tm ∧ createEmp t ≠ "" ∧ ¬tm > now + 86400 ∧
      ¬now - tm > 7776000 ∧ emps (createEmp t) = some emp ∧ ¬tm > now + 300 ∧
      ¬tm < now - 7776000 ∧ labelOf t = lab := by
  unfold gateOk at h
  cases hct : createTime t with
  | none =>
    simp only [hct] at h
    exact Option.noConfusion h
  | some tm' =>
    simp only [hct] at h
    by_cases h1 : createEmp t = ""
    · rw [if_pos h1] at h; cases h
    rw [if_neg h1] at h
    by_cases h2 : tm' > now + 86400
    · rw [if_pos h2] at h; cases h
    rw [if_neg h2] at h
    by_cases h3 : now - tm' > 7776000
    · rw [if_pos h3] at h; cases h
    rw [if_neg h3] at h
    cases hemp : emps (createEmp t) with
    | none =>
      simp only [hemp] at h
      exact Option.noConfusion h
    | some emp' =>
      simp only [hemp] at h
      by_cases h4 : tm' > now + 300
      · rw [if_pos h4] at h; cases h
      rw [if_neg h4] at h
      by_cases h5 : tm' < now - 7776000
      · rw [if_pos h5] at h; cases h
      rw [if_neg h5] at h
      simp only [Option.some.injEq, Prod.mk.injEq] at h
      obtain ⟨rfl, rfl, hl⟩ := h
      exact ⟨rfl, h1, h2, h3, rfl, h4, h5, hl⟩

open SyncApp in
theorem toEventOf_of_gate {now : Int} {emps : String → Option String} {t : Tx}
    {emp : String} {tm : Int} {lab : String}
    (h : gateOk now emps t = some (emp, tm, lab)) :
    toEventOf emps t =
      { employee := emp, time := tm, log_type := lab, device_id := uniqueDeviceIdOf t } := by
  obtain ⟨hct, _, _, _, hemp, _, _, hl⟩ := gateOk_elim h
  simp [toEventOf, hct, hemp, hl]

open SyncApp in
theorem create_state_of_gate {now : Int} {emps : String → Option String} {t : Tx}
    {emp : String} {tm : Int} {lab : String} (s : List Event)
    (h : gateOk now emps t = some (emp, tm, lab)) :
    (create_employee_checkin false now emps t s).2 =
      if hitB emp tm lab (lookupPat t) s then s
      else s ++ [{ employee := emp, time := tm, log_type := lab,
                   device_id := uniqueDeviceIdOf t }] := by
  obtain ⟨hct, h1, h2, h3, hemp, h4, h5, hl⟩ := gateOk_elim h
  simp only [create_employee_checkin, hct, hemp, if_neg h1, if_neg h2, if_neg h3,
    if_neg h4, if_neg h5, hl]
  by_cases hh : hitB emp tm lab (lookupPat t) s
  · rw [if_pos hh, if_pos hh]
  · rw [if_neg hh, if_neg hh]
    rfl

open SyncApp in
theorem hitB_false_of (emp : String) (tm : Int) (lab pat : String) (s : List Event)
    (h : ∀ ev ∈ s, ¬(ev.employee = emp ∧ ev.time = tm)) :
    hitB emp tm lab pat s = false := by
  cases hb : hitB emp tm lab pat s with
  | false => rfl
  | true =>
    exfalso
    simp only [hitB, List.any_eq_true, Bool.and_eq_true, decide_eq_true_eq] at hb
    obtain ⟨ev, hev, ⟨⟨⟨he, ht⟩, _⟩, _⟩⟩ := hb
    exact h ev hev ⟨he, ht⟩

open SyncApp in
theorem syncBatch_eq_append (now : Int) (emps : String → Option String) :
    ∀ (ts : List Tx) (s : List Event),
      (∀ t ∈ ts, ∃ emp tm lab, gateOk now emps t = some (emp, tm, lab)) →
      (∀ t ∈ ts, ∀ ev ∈ s, ¬(ev.employee = (toEventOf emps t).employee ∧
        ev.time = (toEventOf emps t).time)) →
      ts.Pairwise (fun t u => ¬((toEventOf emps t).employee = (toEventOf emps u).employee ∧
        (toEventOf emps t).time = (toEventOf emps u).time)) →
      syncBatch now emps s ts = s ++ ts.map (toEventOf emps) := by
  intro ts
  induction ts with
  | nil => intro s _ _ _; simp [syncBatch]
  | cons t ts ih =>
    intro s hg hs hp
    obtain ⟨emp, tm, lab, hgt⟩ := hg t (List.mem_cons_self t ts)
    have hte := toEventOf_of_gate hgt
    have hnohit : hitB emp tm lab (lookupPat t) s = false := by
      apply hitB_false_of
      intro ev hev hcoll
      exact hs t (List.mem_cons_self t ts) ev hev (by rw [hte]; exact hcoll)
    have hstep : (create_employee_checkin false now emps t s).2 =
        s ++ [toEventOf emps t] := by
      rw [create_state_of_gate s hgt, hnohit, ← hte]
      simp
    show syncBatch now emps (create_employee_checkin false now emps t s).2 ts = _
    rw [hstep, ih (s ++ [toEventOf emps t])
      (fun u hu => hg u (List.mem_cons_of_mem t hu))
      (by
        intro u hu ev hev
        rcases List.mem_append.mp hev with hev | hev
        · exact hs u (List.mem_cons_of_mem t hu) ev hev
        · have : ev = toEventOf emps t := by simpa using hev
          rw [this]
          exact (List.pairwise_cons.mp hp).1 u hu)
      (List.pairwise_cons.mp hp).2]
    simp [List.map_cons]

theorem pairwise_get?_of_ne {α : Type} {R : α → α → Prop}
    (hsym : ∀ a b, R a b → R b a) {l : List α} (hp : l.Pairwise R) :
    ∀ i j (a b : α), l.get? i = some a → l.get? j = some b → i ≠ j → R a b := by
  intro i j a b ha hb hne
  have hi := (List.get?_eq_some.mp ha).1
  have hj := (List.get?_eq_some.mp hb).1
  have ha' : l.get ⟨i, hi⟩ = a := by
    have := List.get?_eq_get hi
    rw [ha] at this
    exact (Option.some.inj this).symm
  have hb' : l.get ⟨j, hj⟩ = b := by
    have := List.get?_eq_get hj
    rw [hb] at this
    exact (Option.some.inj this).symm
  rcases Nat.lt_or_ge i j with hlt | hge
  · have := List.pairwise_iff_get.mp hp ⟨i, hi⟩ ⟨j, hj⟩ hlt
    rwa [ha', hb'] at this
  · have hlt : j < i := by omega
    have := List.pairwise_iff_get.mp hp ⟨j, hj⟩ ⟨i, hi⟩ hlt
    rw [ha', hb'] at this
    exact hsym b a this

open SyncApp in
theorem toEventOf_setLab_employee (emps : String → Option String) (t : Tx) (lb : String) :
    (toEventOf emps (setLab t lb)).employee = (emps (createEmp t)).getD "" := rfl

open SyncApp in
theorem toEventOf_setLab_time (emps : String → Option String) (t : Tx) (lb : String) :
    (toEventOf emps (setLab t lb)).time = (createTime t).getD 0 := rfl

open SyncApp in
theorem relabel_time_mem (emps : String → Option String) (g : List Tx)
    (hv : ∀ u ∈ g, validLabel u.log_type = false) :
    ∀ u ∈ g, ∃ e2 ∈ (relabelInputOrder g).map (toEventOf emps),
      e2.time = (createTime u).getD 0 := by
  intro u hu
  obtain ⟨m, hm⟩ := List.mem_iff_get?.mp hu
  have hrm := relabelInputOrder_unlabeled_get g hv m u hm
  refine ⟨toEventOf emps (setLab u (patternLabel g.length (chronoRankAt g m u))),
    List.mem_map_of_mem _ (List.get?_mem hrm), ?_⟩
  rw [toEventOf_setLab_time]

open SyncApp in
theorem adjust_form (batch : List Tx)
    (hkey : ∀ t ∈ batch, ∃ k, keyOf t = some k)
    (hval : ∀ t ∈ batch, validLabel t.log_type = false)
    (i : Nat) (a : Tx) (ha : (adjust_checkin_sequence batch).get? i = some a) :
    ∃ t, batch.get? i = some t ∧ ∃ lb, lb ≠ "" ∧ a = setLab t lb := by
  have hi : i < batch.length := by
    have h1 := (List.get?_eq_some.mp ha).1
    rwa [adjust_length] at h1
  have hti : batch.get? i = some (batch.get ⟨i, hi⟩) := List.get?_eq_get hi
  obtain ⟨k, hk⟩ := hkey _ (List.get?_mem hti)
  have hspec := adjust_get_spec batch i _ k hti hk hval
  exact ⟨batch.get ⟨i, hi⟩, hti, patternLabel _ _, patternLabel_ne_empty _ _,
    Option.some.inj (ha.symm.trans hspec)⟩

theorem decide_and_eq (p q : Prop) [Decidable p] [Decidable q] :
    (decide p && decide q) = decide (p ∧ q) := by
  by_cases hp : p <;> by_cases hq : q <;> simp [hp, hq]

open SyncApp in
theorem dayGroup_map_key (emps : String → Option String) (batch : List Tx)
    (hfields : ∀ t ∈ batch, ∃ c tm, t.emp_code = some c ∧ c ≠ "" ∧
      t.punch_time = some tm ∧ (emps c).isSome = true)
    (hunlab : ∀ t ∈ batch, t.log_type = none)
    (hinj : ∀ t ∈ batch, ∀ u ∈ batch,
      emps (createEmp t) = emps (createEmp u) → createEmp t = createEmp u)
    (c : String) (d : Int) (emp : String) (hc : emps c = some emp)
    (tt : Tx) (htt : tt ∈ batch) (httc : createEmp tt = c) :
    dayGroup ((adjust_checkin_sequence batch).map (toEventOf emps)) emp d =
      (relabelInputOrder (batch.filter (fun u => decide (keyOf u = some (c, d))))).map
        (toEventOf emps) := by
  have hkey : ∀ t ∈ batch, ∃ k, keyOf t = some k := by
    intro t ht
    obtain ⟨ct, tmt, h1, h2, h3, _⟩ := hfields t ht
    exact ⟨(ct, dayKey tmt), keyOf_of_fields h1 h2 h3⟩
  have hval : ∀ t ∈ batch, validLabel t.log_type = false := by
    intro t ht; rw [hunlab t ht]; rfl
  have hfc : ∀ b ∈ adjust_checkin_sequence batch,
      (decide ((toEventOf emps b).employee = emp) && decide (evDay (toEventOf emps b) = d)) =
        decide (keyOf b = some (c, d)) := by
    intro b hb
    obtain ⟨i', hbi⟩ := List.mem_iff_get?.mp hb
    obtain ⟨u, hui, lbu, hlbu, rfl⟩ := adjust_form batch hkey hval i' b hbi
    have hub : u ∈ batch := List.get?_mem hui
    obtain ⟨cu, tmu, hcu, hcune, hptu, hsomeu⟩ := hfields u hub
    obtain ⟨empu, hempsu⟩ := Option.isSome_iff_exists.mp hsomeu
    have hceu : createEmp u = cu := createEmp_of_code hcu hcune
    have hctu : createTime u = some tmu := createTime_of_pt hptu
    have hku : keyOf u = some (cu, dayKey tmu) := keyOf_of_fields hcu hcune hptu
    have h1 : (toEventOf emps (setLab u lbu)).employee = empu := by
      rw [toEventOf_setLab_employee, hceu, hempsu]
      rfl
    have h2 : evDay (toEventOf emps (setLab u lbu)) = dayKey tmu := by
      show Int.fdiv (toEventOf emps (setLab u lbu)).time 86400 = dayKey tmu
      rw [toEventOf_setLab_time, hctu]
      rfl
    have hiff : empu = emp ↔ cu = c := by
      constructor
      · intro hh
        have he : emps (createEmp u) = emps (createEmp tt) := by
          rw [hceu, httc, hempsu, hc, hh]
        have h3 := hinj u hub tt htt he
        rw [hceu, httc] at h3
        exact h3
      · intro hh
        have h3 : emps cu = emps c := by rw [hh]
        rw [hempsu, hc] at h3
        exact Option.some.inj h3
    rw [h1, h2, keyOf_setLab, hku, decide_and_eq, decide_eq_decide]
    constructor
    · rintro ⟨h3, h4⟩
      simp only [Option.some.injEq, Prod.mk.injEq]
      exact ⟨hiff.mp h3, h4⟩
    · intro h3
      simp only [Option.some.injEq, Prod.mk.injEq] at h3
      exact ⟨hiff.mpr h3.1, h3.2⟩
  unfold dayGroup
  rw [filter_map_general, List.filter_congr hfc, adjust_filter_key]

open SyncApp in
theorem toEventOf_setLab_log (emps : String → Option String) (t : Tx) {lb : String}
    (h : lb ≠ "") : (toEventOf emps (setLab t lb)).log_type = lb :=
  labelOf_setLab t h

open SyncApp in
theorem evDay_toEventOf_setLab (emps : String → Option String) (t : Tx) (lb : String) :
    evDay (toEventOf emps (setLab t lb)) = dayKey ((createTime t).getD 0) := rfl

open SyncApp in
/-- **C1 (amended).** A single sync pass from an empty store establishes the
stored-state invariant: if every punch of the fetched batch carries a non-empty
employee code that resolves to an employee, a punch time inside the acceptance
window (not older than 90 days, at most 5 minutes ahead), and no pre-existing
label, if employee resolution is injective on the batch's codes (two punches
whose codes resolve to the same employee carry equal codes), and if punches
with equal codes have distinct times, then in the
resulting store every (employee, day) group of size 1 is labelled `IN` and
every group of size >= 2 has its chronologically first event labelled `IN` and
its last labelled `OUT`. The invariant is *not* maintained by every sequence
of sync invocations, see the counterexample. -/
theorem stored_invariant_single_pass (now : Int) (emps : String → Option String)
    (batch : List Tx)
    (hfields : ∀ t ∈ batch, ∃ c tm, t.emp_code = some c ∧ c ≠ "" ∧
      t.punch_time = some tm ∧ now - 7776000 ≤ tm ∧ tm ≤ now + 300 ∧
      (emps c).isSome = true)
    (hunlab : ∀ t ∈ batch, t.log_type = none)
    (hinj : ∀ t ∈ batch, ∀ u ∈ batch,
      emps (createEmp t) = emps (createEmp u) → createEmp t = createEmp u)
    (hsep : batch.Pairwise (fun t u => createEmp t = createEmp u →
      createTime t ≠ createTime u)) :
    storedInvariant (sync_pass now emps [] batch) := by
  have hfields' : ∀ t ∈ batch, ∃ c tm, t.emp_code = some c ∧ c ≠ "" ∧
      t.punch_time = some tm ∧ (emps c).isSome = true := by
    intro t ht
    obtain ⟨c, tm, h1, h2, h3, _, _, h6⟩ := hfields t ht
    exact ⟨c, tm, h1, h2, h3, h6⟩
  have hkey : ∀ t ∈ batch, ∃ k, keyOf t = some k := by
    intro t ht
    obtain ⟨ct, tmt, h1, h2, h3, _⟩ := hfields' t ht
    exact ⟨(ct, dayKey tmt), keyOf_of_fields h1 h2 h3⟩
  have hval : ∀ t ∈ batch, validLabel t.log_type = false := by
    intro t ht; rw [hunlab t ht]; rfl
  have htk : ∀ t ∈ batch, timeKey t = (createTime t).getD 0 := by
    intro t ht
    obtain ⟨c, tm, hc, hcne, hpt, _⟩ := hfields' t ht
    rw [timeKey_of_pt hpt, createTime_of_pt hpt]
    rfl
  have hgate : ∀ a ∈ adjust_checkin_sequence batch,
      ∃ emp tm lab, gateOk now emps a = some (emp, tm, lab) := by
    intro a ha
    obtain ⟨i, hai⟩ := List.mem_iff_get?.mp ha
    obtain ⟨t, hti, lb, hlbne, rfl⟩ := adjust_form batch hkey hval i a hai
    have htb : t ∈ batch := List.get?_mem hti
    obtain ⟨c, tm, hc, hcne, hpt, hlo, hhi, hsome⟩ := hfields t htb
    obtain ⟨emp, hemps⟩ := Option.isSome_iff_exists.mp hsome
    refine ⟨emp, tm, labelOf (setLab t lb), gateOk_of_window ?_ hcne ?_ hlo hhi hemps⟩
    · rw [createEmp_setLab]; exact createEmp_of_code hc hcne
    · rw [createTime_setLab]; exact createTime_of_pt hpt
  have hpw : (adjust_checkin_sequence batch).Pairwise
      (fun a b => ¬((toEventOf emps a).employee = (toEventOf emps b).employee ∧
        (toEventOf emps a).time = (toEventOf emps b).time)) := by
    rw [List.pairwise_iff_get]
    intro i j hij
    have hai : (adjust_checkin_sequence batch).get? i.val =
        some ((adjust_checkin_sequence batch).get i) := List.get?_eq_get i.isLt
    have haj : (adjust_checkin_sequence batch).get? j.val =
        some ((adjust_checkin_sequence batch).get j) := List.get?_eq_get j.isLt
    obtain ⟨t, hti, lbt, hlbt, hat⟩ := adjust_form batch hkey hval i.val _ hai
    obtain ⟨u, huj, lbu, hlbu, hau⟩ := adjust_form batch hkey hval j.val _ haj
    have htb : t ∈ batch := List.get?_mem hti
    have hub : u ∈ batch := List.get?_mem huj
    obtain ⟨ct, tmt, hct0, hctne, hptt, _, _, hsomet⟩ := hfields t htb
    obtain ⟨cu, tmu, hcu0, hcune, hptu, _, _, hsomeu⟩ := hfields u hub
    obtain ⟨empt, hempst⟩ := Option.isSome_iff_exists.mp hsomet
    obtain ⟨empu, hempsu⟩ := Option.isSome_iff_exists.mp hsomeu
    rintro ⟨hemp, htime⟩
    rw [hat, hau, toEventOf_setLab_employee, toEventOf_setLab_employee] at hemp
    rw [hat, hau, toEventOf_setLab_time, toEventOf_setLab_time] at htime
    have hce : createEmp t = createEmp u := by
      apply hinj t htb u hub
      rw [createEmp_of_code hct0 hctne, createEmp_of_code hcu0 hcune, hempst, hempsu] at hemp
      simp only [Option.getD_some] at hemp
      rw [createEmp_of_code hct0 hctne, createEmp_of_code hcu0 hcune, hempst, hempsu, hemp]
    have hibl : i.val < batch.length := by rw [← adjust_length batch]; exact i.isLt
    have hjbl : j.val < batch.length := by rw [← adjust_length batch]; exact j.isLt
    have hsepg := List.pairwise_iff_get.mp hsep ⟨i.val, hibl⟩ ⟨j.val, hjbl⟩
      (show i.val < j.val from hij)
    have hti' : batch.get ⟨i.val, hibl⟩ = t := by
      have h9 := List.get?_eq_get hibl
      rw [hti] at h9
      exact (Option.some.inj h9).symm
    have huj' : batch.get ⟨j.val, hjbl⟩ = u := by
      have h9 := List.get?_eq_get hjbl
      rw [huj] at h9
      exact (Option.some.inj h9).symm
    rw [hti', huj'] at hsepg
    apply hsepg hce
    rw [createTime_of_pt hptt, createTime_of_pt hptu] at htime
    simp only [Option.getD_some] at htime
    rw [createTime_of_pt hptt, createTime_of_pt hptu, htime]
  have hstore : sync_pass now emps [] batch =
      (adjust_checkin_sequence batch).map (toEventOf emps) := by
    unfold sync_pass
    rw [syncBatch_eq_append now emps (adjust_checkin_sequence batch) [] hgate
      (fun t _ ev hev => absurd hev (List.not_mem_nil ev)) hpw]
    rfl
  rw [hstore]
  unfold storedInvariant
  intro ev hev
  obtain ⟨a, ha, rfl⟩ := List.mem_map.mp hev
  obtain ⟨i, hai⟩ := List.mem_iff_get?.mp ha
  have hi : i < batch.length := by
    have h1 := (List.get?_eq_some.mp hai).1
    rwa [adjust_length] at h1
  obtain ⟨t, hti⟩ : ∃ t, batch.get? i = some t := ⟨_, List.get?_eq_get hi⟩
  have htb : t ∈ batch := List.get?_mem hti
  obtain ⟨c, tm, hc, hcne, hpt, hlo, hhi, hsome⟩ := hfields t htb
  obtain ⟨emp, hemps⟩ := Option.isSome_iff_exists.mp hsome
  have hce : createEmp t = c := createEmp_of_code hc hcne
  have hct : createTime t = some tm := createTime_of_pt hpt
  have hkt : keyOf t = some (c, dayKey tm) := keyOf_of_fields hc hcne hpt
  have hspec := adjust_get_spec batch i t (c, dayKey tm) hti hkt hval
  have ha_eq : a = setLab t (patternLabel
      (batch.filter (fun u => decide (keyOf u = some (c, dayKey tm)))).length
      (chronoRankAt (batch.filter (fun u => decide (keyOf u = some (c, dayKey tm))))
        ((batch.take i).filter (fun u => decide (keyOf u = some (c, dayKey tm)))).length
        t)) :=
    Option.some.inj (hai.symm.trans hspec)
  rw [ha_eq, toEventOf_setLab_employee, evDay_toEventOf_setLab, toEventOf_setLab_time,
    toEventOf_setLab_log emps t (patternLabel_ne_empty _ _), hce, hemps, hct]
  simp only [Option.getD_some]
  rw [dayGroup_map_key emps batch hfields' hunlab hinj c (dayKey tm) emp hemps t htb hce]
  have hjg : (batch.filter (fun u => decide (keyOf u = some (c, dayKey tm)))).get?
      ((batch.take i).filter (fun u => decide (keyOf u = some (c, dayKey tm)))).length =
      some t :=
    grp_get_of_split batch (batch.take i) (batch.drop (i + 1)) t (c, dayKey tm)
      (get_split hti) hkt
  have hvg : ∀ u ∈ batch.filter (fun u => decide (keyOf u = some (c, dayKey tm))),
      validLabel u.log_type = false := fun u hu => hval u (List.mem_of_mem_filter hu)
  have htmg : ∀ u ∈ batch.filter (fun u => decide (keyOf u = some (c, dayKey tm))),
      timeKey u = (createTime u).getD 0 := fun u hu => htk u (List.mem_of_mem_filter hu)
  have helem : ∀ u ∈ batch.filter (fun u => decide (keyOf u = some (c, dayKey tm))),
      createEmp u = c ∧ ∃ tmu, createTime u = some tmu := by
    intro u hu
    have hub : u ∈ batch := List.mem_of_mem_filter hu
    have hku' : keyOf u = some (c, dayKey tm) := of_decide_eq_true (List.mem_filter.mp hu).2
    obtain ⟨cu, tmu, hcu, hcune, hptu, _⟩ := hfields' u hub
    have hku2 : keyOf u = some (cu, dayKey tmu) := keyOf_of_fields hcu hcune hptu
    rw [hku2] at hku'
    simp only [Option.some.injEq, Prod.mk.injEq] at hku'
    refine ⟨?_, tmu, createTime_of_pt hptu⟩
    rw [createEmp_of_code hcu hcune]
    exact hku'.1
  have hpwg : (batch.filter (fun u => decide (keyOf u = some (c, dayKey tm)))).Pairwise
      (fun u v => timeKey u ≠ timeKey v) := by
    refine (hsep.filter _).imp_of_mem ?_
    intro u v hu hv hr
    obtain ⟨hcu, tmu, hctu⟩ := helem u hu
    obtain ⟨hcv, tmv, hctv⟩ := helem v hv
    have hne := hr (hcu.trans hcv.symm)
    rw [htmg u hu, htmg v hv, hctu, hctv]
    simp only [Option.getD_some]
    intro heq
    exact hne (by rw [hctu, hctv, heq])
  have hdist := pairwise_get?_of_ne (fun x y h he => h he.symm) hpwg
  refine ⟨?_, ?_⟩
  · intro h1
    rw [List.length_map, relabelInputOrder_length] at h1
    have hjlt := (List.get?_eq_some.mp hjg).1
    rw [h1] at hjlt
    have hj0 : ((batch.take i).filter
        (fun u => decide (keyOf u = some (c, dayKey tm)))).length = 0 := by omega
    rw [hj0] at hjg
    obtain ⟨x, hx⟩ := List.length_eq_one.mp h1
    have hxt : x = t := by
      rw [hx] at hjg
      exact Option.some.inj hjg
    rw [hj0, hx, hxt]
    have hr0 : chronoRankAt [t] 0 t = 0 := by simp [chronoRankAt]
    rw [hr0]
    rfl
  · intro h2
    rw [List.length_map, relabelInputOrder_length] at h2
    refine ⟨?_, ?_⟩
    · intro hminEv
      have hmin : ∀ u ∈ batch.filter (fun u => decide (keyOf u = some (c, dayKey tm))),
          timeKey t ≤ timeKey u := by
        intro u hu
        obtain ⟨e2, he2, hte2⟩ := relabel_time_mem emps _ hvg u hu
        have h3 := hminEv e2 he2
        rw [hte2] at h3
        rw [timeKey_of_pt hpt, htmg u hu]
        exact h3
      rw [chronoRankAt_min _ _ t hjg hdist hmin]
      unfold patternLabel
      rw [if_neg (by omega), if_neg (by omega), if_pos (by decide)]
    · intro hmaxEv
      have hmax : ∀ u ∈ batch.filter (fun u => decide (keyOf u = some (c, dayKey tm))),
          timeKey u ≤ timeKey t := by
        intro u hu
        obtain ⟨e2, he2, hte2⟩ := relabel_time_mem emps _ hvg u hu
        have h3 := hmaxEv e2 he2
        rw [hte2] at h3
        rw [htmg u hu, timeKey_of_pt hpt]
        exact h3
      rw [chronoRankAt_max _ _ t hjg hdist hmax]
      unfold patternLabel
      rw [if_neg (by omega), if_pos rfl]

/-- Witness: two in-window punches of employee `E1` at times 100 and 200 yield
a store satisfying the invariant. -/
theorem stored_invariant_single_pass_witness :
    SyncApp.storedInvariant (SyncApp.sync_pass 1000 empsEx [] [mkPunch 100, mkPunch 200]) :=
  stored_invariant_single_pass 1000 empsEx [mkPunch 100, mkPunch 200]
    (by
      intro t ht
      fin_cases ht
      · exact ⟨"E1", 100, rfl, by decide, rfl, by decide, by decide, by decide⟩
      · exact ⟨"E1", 200, rfl, by decide, rfl, by decide, by decide, by decide⟩)
    (by intro t ht; fin_cases ht <;> rfl)
    (by intro t ht u hu h; fin_cases ht <;> fin_cases hu <;> rfl)
    (by decide)

/-- **C1 (counterexample to the original claim).** The state reached by two
successive sync passes violates the invariant: the first pass stores
`IN`@100 and `OUT`@200 for employee `EMP1`; the second pass fetches the lone
punch at 300, which forms a singleton group and is labelled `IN`, so the
chronologically last event of the day is labelled `IN`, not `OUT`. -/
theorem stored_invariant_cex :
    ¬ SyncApp.storedInvariant (SyncApp.sync_pass 1000 empsEx
      (SyncApp.sync_pass 1000 empsEx [] [mkPunch 100, mkPunch 200]) [mkPunch 300]) := by
  decide
